import Mathlib

/-!
# douyin_selfhost: a shallow embedding of `main.go`

The Go program serves a single-page application and a mock data API.  This file
embeds the parts of `main.go` that carry behaviour: the slice arithmetic of the
list handlers, the dataset loader, the media scan, the SPA fallback handler and
the response envelopes.

Conventions of the embedding.

* Go `int` is the 64-bit two's-complement integer: values are `Int`, and every
  addition and multiplication of the source goes through `wrap`.
* A run-time panic is the result `none`.
* `map[string]interface{}` is an association list with unique keys, a nil map is
  `none`; values held in `interface{}` are the type `Value`.
* Functions of the Go standard library are fields of `Lib`; answers of the
  operating system are fields of `World`.  `log.Printf` has no effect on any
  value and is left out.
-/

set_option autoImplicit false

namespace Douyin

/-! ## Machine integers and slice expressions -/

/-- Two's-complement reduction of an integer to the range of a 64-bit Go `int`. -/
def wrap (x : Int) : Int := (x + 2 ^ 63) % 2 ^ 64 - 2 ^ 63

/-- The bounds test of the Go slice expression `s[lo:hi]`: `0 <= lo <= hi <= len(s)`. -/
def inBounds {α : Type} (s : List α) (lo hi : Int) : Prop :=
  0 ≤ lo ∧ lo ≤ hi ∧ hi ≤ (s.length : Int)

instance instDecidableInBounds {α : Type} (s : List α) (lo hi : Int) :
    Decidable (inBounds s lo hi) := by
  unfold inBounds; infer_instance

/-- The Go slice expression `s[lo:hi]`.  It panics (`none`) unless
`0 <= lo <= hi <= len(s)`.  (For a Go slice the upper limit is `cap(s)`, which is at
least `len(s)`; every slice expression of `main.go` is evaluated with `hi` either a
constant guarded by a test on `len` or a value already clamped to `len`, so the two
limits never differ here.) -/
def slice {α : Type} (s : List α) (lo hi : Int) : Option (List α) :=
  if inBounds s lo hi then
    some ((s.drop lo.toNat).take (hi.toNat - lo.toNat))
  else none

/-- The operands `(low, high)` of the slice expression of `recommendedHandler`
(main.go 393-401): `end` is clamped to `total`, then `start` is clamped to `total`. -/
def recommendedBounds (total start pageSize : Int) : Int × Int :=
  let end_ := wrap (start + pageSize)
  let end_ := if end_ > total then total else end_
  let start := if start > total then total else start
  (start, end_)

/-- Pagination step of `recommendedHandler` (main.go 393-401): the page and `total`. -/
def recommendedPage {α : Type} (videos : List α) (start pageSize : Int) :
    Option (List α × Int) :=
  let total : Int := videos.length
  let b := recommendedBounds total start pageSize
  (slice videos b.1 b.2).map fun l => (l, total)

/-- Pagination step of `videoLongRecommendedHandler` (main.go 471-484). -/
def videoLongRecommendedPage {α : Type} (jsonVideos : List α) (start pageSize : Int) :
    Option (List α × Int) :=
  let total : Int := jsonVideos.length
  if total > 0 then
    let b := recommendedBounds total start pageSize
    (slice jsonVideos b.1 b.2).map fun l => (l, total)
  else some ([], total)

/-- The block `end := offset + pageSize; if offset >= total { empty } else { clamp end;
xs[offset:end] }` shared verbatim by `videoMyHandler` (662-672), `videoHistoryHandler`
(724-733), `postRecommendedHandler` (909-922) and `shopRecommendedHandler` (955-966). -/
def offsetSlice {α : Type} (xs : List α) (offset pageSize : Int) : Option (List α) :=
  let total : Int := xs.length
  let end_ := wrap (offset + pageSize)
  if offset ≥ total then some []
  else
    let end_ := if end_ > total then total else end_
    slice xs offset end_

/-- Pagination step of `videoMyHandler` (main.go 634, 662-672). -/
def videoMyPage {α : Type} (userVideos : List α) (pageNo pageSize : Int) :
    Option (List α × Int) :=
  let offset := wrap (pageNo * pageSize)
  (offsetSlice userVideos offset pageSize).map fun l => (l, (userVideos.length : Int))

/-- Pagination step of `postRecommendedHandler` (main.go 907-922). -/
def postRecommendedPage {α : Type} (jsonPosts : List α) (pageNo pageSize : Int) :
    Option (List α × Int) :=
  let offset := wrap (pageNo * pageSize)
  (offsetSlice jsonPosts offset pageSize).map fun l => (l, (jsonPosts.length : Int))

/-- Pagination step of `shopRecommendedHandler` (main.go 953-966). -/
def shopRecommendedPage {α : Type} (jsonGoods : List α) (pageNo pageSize : Int) :
    Option (List α × Int) :=
  let offset := wrap (pageNo * pageSize)
  (offsetSlice jsonGoods offset pageSize).map fun l => (l, (jsonGoods.length : Int))

/-- Window of `videoPrivateHandler` (main.go 554-565): the list and `total`. -/
def videoPrivatePage {α : Type} (jsonVideos : List α) : Option (List α × Int) :=
  if (jsonVideos.length : Int) ≥ 110 then
    (slice jsonVideos 100 110).map fun l => (l, 10)
  else if (jsonVideos.length : Int) > 0 then
    some (jsonVideos, (jsonVideos.length : Int))
  else some ([], 0)

/-- Window of `videoLikeHandler` (main.go 589-602): the list and `total`. -/
def videoLikePage {α : Type} (jsonVideos : List α) : Option (List α × Int) :=
  let startIdx : Int := 200
  let endIdx : Int := 350
  if (jsonVideos.length : Int) ≥ endIdx then
    (slice jsonVideos startIdx endIdx).map fun l => (l, 150)
  else if (jsonVideos.length : Int) > startIdx then
    (slice jsonVideos startIdx jsonVideos.length).map fun l =>
      (l, (jsonVideos.length : Int) - startIdx)
  else some ([], 0)

/-- The `subset` and `total` of `videoHistoryHandler` (main.go 705-721). -/
def videoHistorySubset {α : Type} (jsonVideos : List α) : Option (List α × Int) :=
  let startIdx : Int := 200
  let endIdx : Int := 350
  if (jsonVideos.length : Int) ≥ endIdx then
    (slice jsonVideos startIdx endIdx).map fun l => (l, 150)
  else if (jsonVideos.length : Int) > startIdx then
    (slice jsonVideos startIdx jsonVideos.length).map fun l => (l, (l.length : Int))
  else some ([], 0)

/-- Window and pagination of `videoHistoryHandler` (main.go 703-733): the list and
`total`. -/
def videoHistoryPage {α : Type} (jsonVideos : List α) (pageNo pageSize : Int) :
    Option (List α × Int) :=
  let offset := wrap (pageNo * pageSize)
  match videoHistorySubset jsonVideos with
  | none => none
  | some (subset, total) =>
    (offsetSlice subset offset pageSize).map fun l => (l, total)

/-- Video window of `userCollectHandler` (main.go 783-796). -/
def userCollectPage {α : Type} (jsonVideos : List α) : Option (List α × Int) :=
  let vStart : Int := 350
  let vEnd : Int := 400
  if (jsonVideos.length : Int) ≥ vEnd then
    (slice jsonVideos vStart vEnd).map fun l => (l, 50)
  else if (jsonVideos.length : Int) > vStart then
    (slice jsonVideos vStart jsonVideos.length).map fun l =>
      (l, (jsonVideos.length : Int) - vStart)
  else some ([], 0)

/-! ## Values, maps and strings -/

/-- A Go `float64`, given by its IEEE-754 bit pattern. -/
structure Float64 where
  bits : Nat
  deriving DecidableEq, Repr

/-- The dynamic values the program stores in `interface{}`: what `encoding/json`
decodes (`nil`, `bool`, `float64`, `string`, slices, maps) and the `int` and
`[]string` literals the program builds itself. -/
inductive Value where
  | null
  | bool (b : Bool)
  | int (n : Int)
  | float (f : Float64)
  | str (s : String)
  | list (xs : List Value)
  | map (kvs : List (String × Value))
  deriving Inhabited

/-- A non-nil `map[string]interface{}`. -/
abbrev Obj := List (String × Value)

/-- An element of a `[]map[string]interface{}`: `none` is the nil map that
`encoding/json` stores for a JSON `null` element. -/
abbrev Record := Option Obj

/-- The map read `m[k]` with its `ok` flag. -/
def mapGet : Obj → String → Option Value
  | [], _ => none
  | (k', v) :: rest, k => if k' = k then some v else mapGet rest k

/-- The map assignment `m[k] = v`. -/
def mapSet : Obj → String → Value → Obj
  | [], k, v => [(k, v)]
  | (k', v') :: rest, k, v =>
    if k' = k then (k, v) :: rest else (k', v') :: mapSet rest k v

/-- The read `r[k]` of a possibly nil map: a nil map has no entries. -/
def recGet (r : Record) (k : String) : Option Value :=
  match r with
  | none => none
  | some m => mapGet m k

/-- The assignment `r[k] = v` on a possibly nil map: assigning into a nil map
panics. -/
def recSet (r : Record) (k : String) (v : Value) : Option Record :=
  match r with
  | none => none
  | some m => some (some (mapSet m k v))

/-- A record as the `interface{}` value holding it. -/
def recValue (r : Record) : Value :=
  match r with
  | none => Value.null
  | some m => Value.map m

/-- A `[]map[string]interface{}` as the `interface{}` value holding it.  The nil slice
(a collection that was never loaded), which `encoding/json` writes as `null`, is not
told apart from the empty slice: both are the empty list here. -/
def recsValue (rs : List Record) : Value := Value.list (rs.map recValue)

/-- A `[]string` as the `interface{}` value holding it. -/
def strsValue (ss : List String) : Value := Value.list (ss.map Value.str)

/-- Go `strings.HasSuffix`. -/
def hasSuffix (s suf : String) : Bool := decide (suf.data <:+ s.data)

/-- Go `strings.HasPrefix`. -/
def startsWith (s pre : String) : Bool := decide (pre.data <+: s.data)

/-- Go `strings.TrimSuffix`. -/
def trimSuffix (s suf : String) : String :=
  if hasSuffix s suf then ⟨s.data.take (s.data.length - suf.data.length)⟩ else s

/-- Go `strings.TrimPrefix`. -/
def trimLeading (s pre : String) : String :=
  if startsWith s pre then ⟨s.data.drop pre.data.length⟩ else s

/-- `os.PathSeparator` (Unix build). -/
def pathSeparator : Char := '/'

/-- The loop of Go `filepath.Ext` over the reversed path: walk back from the last
byte until a separator; at the first dot return the suffix starting there. -/
def extScan : List Char → List Char → List Char
  | [], _ => []
  | c :: rest, acc =>
    if c = pathSeparator then []
    else if c = '.' then '.' :: acc
    else extScan rest (c :: acc)

/-- Go `filepath.Ext`. -/
def filepathExt (path : String) : String := ⟨extScan path.data.reverse []⟩

/-- Go `strings.Split(s, sep)` for a one-character separator, on character lists. -/
def splitChars (sep : Char) : List Char → List (List Char)
  | [] => [[]]
  | c :: cs =>
    if c = sep then [] :: splitChars sep cs
    else
      match splitChars sep cs with
      | [] => [[c]]
      | p :: ps => (c :: p) :: ps

/-- Go `strings.Split(s, string(sep))`. -/
def stringsSplit (s : String) (sep : Char) : List String :=
  (splitChars sep s.data).map String.mk

/-- Go `strings.Join(parts, sep)`. -/
def stringsJoin : List String → String → String
  | [], _ => ""
  | [p], _ => p
  | p :: q :: rest, sep => p ++ sep ++ stringsJoin (q :: rest) sep

/-- Raw file content. -/
abbrev Bytes := List Nat

/-- An `error` value, as far as the program looks at it. -/
structure Err where
  /-- The answer of `os.IsNotExist(err)`. -/
  notExist : Bool
  /-- The text of `err.Error()`. -/
  msg : String
  deriving DecidableEq, Repr

/-- The functions of the Go standard library that the program calls and that are
not unfolded here. -/
structure Lib where
  /-- Renders `fmt.Sprintf("%.0f", x)`. -/
  sprintfF0 : Float64 → String
  /-- Scans with `fmt.Sscanf(s, "%d", &n)`: the integer stored, `none` when the scan
  fails and `n` keeps its value. -/
  sscanfD : String → Option Int
  /-- Computes `hex.EncodeToString(md5.Sum([]byte(s)))`. -/
  md5Hex : String → String
  /-- Computes `filepath.Rel(base, target)`, `none` on error. -/
  filepathRel : String → String → Option String
  /-- Computes `strings.ToLower`. -/
  toLower : String → String
  /-- Computes `url.PathEscape`. -/
  pathEscape : String → String
  /-- Computes `filepath.Join` of the elements. -/
  filepathJoin : List String → String
  /-- Decodes with `json.Unmarshal(data, &v)` for `v interface{}`, `none` on error. -/
  jsonUnmarshal : Bytes → Option Value
  /-- Decodes with `json.Unmarshal(data, &v)` for a `v []map[string]interface{}` that
  is nil before the call, as it is at each call site: the value left in `v`, and
  whether the error is nil. -/
  jsonUnmarshalRecords : Bytes → List Record × Bool

/-- One call that `filepath.WalkDir` makes to its callback. -/
inductive WalkEvent where
  /-- The call `fn(path, d, nil)` with `d.Name() = name` and `d.IsDir() = isDir`. -/
  | entry (path : String) (name : String) (isDir : Bool)
  /-- The call `fn(path, d, err)` with a non-nil `err`. -/
  | failure (path : String) (err : Err)

/-- The answers of the operating system. -/
structure World where
  /-- Reads with `fs.ReadFile(fileSystem, name)`, `none` on error. -/
  fsReadFile : String → Option Bytes
  /-- Reads with `os.ReadFile(name)`, `none` on error. -/
  osReadFile : String → Option Bytes
  /-- The calls `filepath.WalkDir(root, fn)` makes, in order, as long as `fn` keeps
  returning nil. -/
  walkEvents : String → List WalkEvent

/-! ## Dataset loading -/

/-- The package-level variables of `main.go`. -/
structure Globals where
  mediaDir : String
  staticDir : String
  jsonVideos : List Record
  jsonMusic : List Record
  /-- The user index `map[string]interface{}`; the nil map reads as the empty map. -/
  jsonUsers : Obj
  jsonUsersList : List Record
  jsonPosts : List Record
  jsonGoods : List Record

/-- One round of the loop `for _, u := range users` of `loadJsonData`
(main.go 125-129). -/
def indexUser (jsonUsers : Obj) (u : Record) : Obj :=
  match recGet u "uid" with
  | some (Value.str uid) => mapSet jsonUsers uid (recValue u)
  | _ => jsonUsers

/-- The user index built by `loadJsonData` (main.go 123-129). -/
def indexUsers (users : List Record) : Obj := users.foldl indexUser []

/-- The body of the loop `for _, v := range videos` of `loadJsonData` up to the
append (main.go 189-198); `none` is the panic of assigning into a nil map. -/
def loadVideo (lib : Lib) (jsonUsers : Obj) (v : Record) : Option Record :=
  match recSet v "type" (Value.str "recommend-video") with
  | none => none
  | some v1 =>
    match recGet v1 "author_user_id" with
    | some (Value.float authorIDNum) =>
      let authorID := lib.sprintfF0 authorIDNum
      match mapGet jsonUsers authorID with
      | some user => recSet v1 "author" user
      | none => some v1
    | _ => some v1

/-- The loop `for _, v := range videos` of `loadJsonData` (main.go 188-200),
appending to `jsonVideos`. -/
def loadVideos (lib : Lib) (jsonUsers : Obj) :
    List Record → List Record → Option (List Record)
  | [], jsonVideos => some jsonVideos
  | v :: rest, jsonVideos =>
    match loadVideo lib jsonUsers v with
    | none => none
    | some v1 => loadVideos lib jsonUsers rest (jsonVideos ++ [v1])

/-- The users block of `loadJsonData` (main.go 115-132). -/
def loadUsers (lib : Lib) (w : World) (g : Globals) : Globals :=
  match w.fsReadFile "data/users.json" with
  | none => g
  | some usersBytes =>
    let users := lib.jsonUnmarshalRecords usersBytes
    if users.2 then
      { g with jsonUsers := indexUsers users.1, jsonUsersList := users.1 }
    else g

/-- The posts block of `loadJsonData` (main.go 135-144): `json.Unmarshal` writes into
the global itself. -/
def loadPosts (lib : Lib) (w : World) (g : Globals) : Globals :=
  match w.fsReadFile "data/posts.json" with
  | none => g
  | some postsBytes => { g with jsonPosts := (lib.jsonUnmarshalRecords postsBytes).1 }

/-- The goods block of `loadJsonData` (main.go 147-156). -/
def loadGoods (lib : Lib) (w : World) (g : Globals) : Globals :=
  match w.fsReadFile "data/goods.json" with
  | none => g
  | some goodsBytes => { g with jsonGoods := (lib.jsonUnmarshalRecords goodsBytes).1 }

/-- The two reads of the videos block of `loadJsonData` (main.go 175-179). -/
def readVideosBytes (w : World) : Option Bytes :=
  match w.fsReadFile "data/videos.json" with
  | some videosBytes => some videosBytes
  | none => w.osReadFile "src/assets/data/posts6.json"

/-- The videos block of `loadJsonData` (main.go 175-203). -/
def loadVideosBlock (lib : Lib) (w : World) (g : Globals) : Option Globals :=
  match readVideosBytes w with
  | none => some g
  | some videosBytes =>
    let videos := lib.jsonUnmarshalRecords videosBytes
    if videos.2 then
      match loadVideos lib g.jsonUsers videos.1 g.jsonVideos with
      | none => none
      | some jsonVideos => some { g with jsonVideos := jsonVideos }
    else some g

/-- Go `loadJsonData` (main.go 113-204); `none` is a panic. -/
def loadJsonData (lib : Lib) (w : World) (g : Globals) : Option Globals :=
  loadVideosBlock lib w (loadGoods lib w (loadPosts lib w (loadUsers lib w g)))

/-- Go `loadMusicData` (main.go 206-217). -/
def loadMusicData (lib : Lib) (w : World) (g : Globals) : Globals :=
  match w.fsReadFile "data/music.json" with
  | none => g
  | some musicBytes => { g with jsonMusic := (lib.jsonUnmarshalRecords musicBytes).1 }

/-- The package-level variables before `main` runs, with the two directories set from
the flags (main.go 989-990). -/
def initialGlobals (mediaDir staticDir : String) : Globals :=
  { mediaDir := mediaDir, staticDir := staticDir, jsonVideos := [], jsonMusic := [],
    jsonUsers := [], jsonUsersList := [], jsonPosts := [], jsonGoods := [] }

/-! ## Media scan -/

/-- The map `{"url_list": []string{u}}` that `scanMediaVideos` uses for every image. -/
def urlList (u : String) : Value := Value.map [("url_list", strsValue [u])]

/-- The record literal of `scanMediaVideos` (main.go 261-349). -/
def mediaRecord (id desc videoUrl coverUrl : String) : Obj :=
  [ ("type", Value.str "recommend-video"),
    ("aweme_id", Value.str id),
    ("desc", Value.str desc),
    ("create_time", Value.int 1691665927),
    ("music", Value.map
      [ ("id", Value.int 123456789),
        ("title", Value.str "Original Sound"),
        ("author", Value.str "Local Artist"),
        ("cover_medium", urlList ""),
        ("cover_thumb", urlList ""),
        ("cover_large", urlList ""),
        ("play_url", Value.map
          [ ("uri", Value.str "music_uri"),
            ("url_list", strsValue [""]) ]) ]),
    ("video", Value.map
      [ ("play_addr", Value.map
          [ ("uri", Value.str id),
            ("url_list", strsValue [videoUrl]),
            ("width", Value.int 720),
            ("height", Value.int 1280) ]),
        ("cover", urlList coverUrl),
        ("width", Value.int 720),
        ("height", Value.int 1280) ]),
    ("author", Value.map
      [ ("uid", Value.str "local_user"),
        ("nickname", Value.str "Local User"),
        ("unique_id", Value.str "local_user_id"),
        ("avatar_thumb", urlList ""),
        ("avatar_medium", urlList ""),
        ("avatar_large", urlList ""),
        ("avatar_168x168", urlList ""),
        ("avatar_larger", urlList ""),
        ("cover_url", Value.list [urlList ""]),
        ("share_info", Value.map
          [ ("share_qrcode_url", urlList ""),
            ("share_url", Value.str ""),
            ("share_image_url", urlList "") ]) ]),
    ("statistics", Value.map
      [ ("digg_count", Value.int 0),
        ("comment_count", Value.int 0),
        ("share_count", Value.int 0),
        ("play_count", Value.int 0) ]),
    ("share_info", Value.map [("share_url", Value.str "")]),
    ("status", Value.map [("is_delete", Value.bool false)]),
    ("aweme_control", Value.map
      [ ("can_forward", Value.bool true),
        ("can_share", Value.bool true),
        ("can_comment", Value.bool true),
        ("can_show_comment", Value.bool true) ]) ]

/-- The extension filter of `scanMediaVideos` (main.go 235-238): true when the file is
kept. -/
def mediaExtension (lib : Lib) (fileName : String) : Bool :=
  let lowerName := lib.toLower fileName
  !(!hasSuffix lowerName ".mp4" && !hasSuffix lowerName ".webm" &&
    !hasSuffix lowerName ".ogg")

/-- The playback URL of `scanMediaVideos` (main.go 253-257). -/
def mediaUrl (lib : Lib) (relPath : String) : String :=
  let parts := (stringsSplit relPath pathSeparator).map lib.pathEscape
  "/media/" ++ stringsJoin parts "/"

/-- The callback that `scanMediaVideos` passes to `filepath.WalkDir`
(main.go 222-352): the new value of `videos` and the error returned. -/
def scanCallback (lib : Lib) (mediaDir : String) (videos : List Obj) (ev : WalkEvent) :
    List Obj × Option Err :=
  match ev with
  | WalkEvent.failure path err =>
    if err.notExist && path = mediaDir then (videos, none) else (videos, some err)
  | WalkEvent.entry path fileName isDir =>
    if isDir then (videos, none)
    else if !mediaExtension lib fileName then (videos, none)
    else
      match lib.filepathRel mediaDir path with
      | none => (videos, none)
      | some relPath =>
        let desc := trimSuffix fileName (filepathExt fileName)
        let id := lib.md5Hex relPath
        let videoUrl := mediaUrl lib relPath
        let coverUrl := ""
        (videos ++ [mediaRecord id desc videoUrl coverUrl], none)

/-- Go `filepath.WalkDir` seen from the callback: it is called for the events in
order until it returns a non-nil error, which `WalkDir` returns. -/
def walkDir {σ : Type} (fn : σ → WalkEvent → σ × Option Err) :
    List WalkEvent → σ → σ × Option Err
  | [], st => (st, none)
  | ev :: rest, st =>
    match fn st ev with
    | (st1, none) => walkDir fn rest st1
    | (st1, some err) => (st1, some err)

/-- Go `scanMediaVideos` (main.go 219-362): the pair `(videos, err)` returned, the nil
slice being `[]`. -/
def scanMediaVideos (lib : Lib) (w : World) (mediaDir : String) : List Obj × Option Err :=
  match walkDir (scanCallback lib mediaDir) (w.walkEvents mediaDir) [] with
  | (videos, some err) => if err.notExist then (videos, none) else ([], some err)
  | (videos, none) => (videos, none)

/-! ## HTTP requests and responses -/

/-- The parts of `*http.Request` the handlers look at. -/
structure Request where
  /-- The field `r.Method`. -/
  method : String
  /-- The field `r.URL.Path`. -/
  urlPath : String
  /-- The lookup `r.URL.Query().Get(key)`, the empty string when the key is absent. -/
  query : String → String

/-- What a handler has written to the body of its `http.ResponseWriter`. -/
inductive Body where
  /-- Nothing was written. -/
  | empty
  /-- The value passed to `json.NewEncoder(w).Encode`. -/
  | json (v : Value)
  /-- The text printed by `http.Error`. -/
  | text (s : String)

/-- The state of the `http.ResponseWriter` when a handler returns, together with the
file-system accesses the handler made. -/
structure Response where
  /-- The header map `w.Header()`. -/
  header : List (String × String)
  /-- The status passed to `WriteHeader`, `none` when the handler never sets one and
  net/http sends 200. -/
  status : Option Nat
  body : Body
  /-- The file-system accesses made so far, oldest first. -/
  reads : List String

/-- The untouched `http.ResponseWriter` a handler receives. -/
def newResponse : Response := { header := [], status := none, body := Body.empty, reads := [] }

/-- The status net/http sends. -/
def statusCode (w : Response) : Nat := w.status.getD 200

/-- The call `w.Header().Set(key, value)`. -/
def setHeader (w : Response) (key value : String) : Response :=
  { w with header := w.header.filter (fun kv => decide (kv.1 ≠ key)) ++ [(key, value)] }

/-- The lookup `w.Header().Get(key)`, `none` when the key is not set. -/
def getHeader (w : Response) (key : String) : Option String :=
  (w.header.find? (fun kv => decide (kv.1 = key))).map Prod.snd

/-- The call `json.NewEncoder(w).Encode(v)`. -/
def encode (w : Response) (v : Value) : Response := { w with body := Body.json v }

/-- The call `http.Error(w, msg, code)`. -/
def httpError (w : Response) (msg : String) (code : Nat) : Response :=
  let w := setHeader w "Content-Type" "text/plain; charset=utf-8"
  let w := setHeader w "X-Content-Type-Options" "nosniff"
  { w with status := some code, body := Body.text msg }

/-- Records one access to the file system. -/
def logRead (w : Response) (what : String) : Response := { w with reads := w.reads ++ [what] }

/-- The two `w.Header().Set` calls that open every API handler. -/
def cors (w : Response) : Response :=
  setHeader (setHeader w "Access-Control-Allow-Origin" "*")
    "Access-Control-Allow-Headers" "Content-Type"

/-- The pattern `if s := r.URL.Query().Get(key); s != "" { fmt.Sscanf(s, "%d", &n) }`
on a variable initialised to `dflt`. -/
def queryInt (lib : Lib) (r : Request) (key : String) (dflt : Int) : Int :=
  let s := r.query key
  if s ≠ "" then
    match lib.sscanfD s with
    | some n => n
    | none => dflt
  else dflt

/-- The JSON object of the struct `ResponseData{Total, List}` (main.go 93-96). -/
def responseData (total : Int) (list : Value) : Value :=
  Value.map [("total", Value.int total), ("list", list)]

/-- The test "the value is an object with `code` = 200, `msg` = "" and a `data` object
holding an integer `total` and a `list`", the envelope of the list endpoints. -/
def isListEnvelope : Value → Bool
  | Value.map kvs =>
    match mapGet kvs "code", mapGet kvs "data", mapGet kvs "msg" with
    | some (Value.int code), some (Value.map data), some (Value.str msg) =>
      match mapGet data "total", mapGet data "list" with
      | some (Value.int _), some (Value.list _) => decide (code = 200) && decide (msg = "")
      | _, _ => false
    | _, _, _ => false
  | _ => false

/-- An API handler: `none` is a panic. -/
abbrev Handler := Lib → World → Globals → Request → Option Response

/-! ## API handlers -/

/-- Go `recommendedHandler` (main.go 364-428). -/
def recommendedHandler : Handler := fun lib world g r =>
  let w := cors newResponse
  if r.method = "OPTIONS" then some w
  else
    let start := queryInt lib r "start" 0
    let pageSize := queryInt lib r "pageSize" 10
    let w := logRead w ("filepath.WalkDir " ++ g.mediaDir)
    match scanMediaVideos lib world g.mediaDir with
    | (_, some err) => some (httpError w err.msg 500)
    | (videos, none) =>
      match recommendedPage videos start pageSize with
      | none => none
      | some (pagedVideos, total) =>
        let resp := responseData total (Value.list (pagedVideos.map Value.map))
        let w := setHeader w "Content-Type" "application/json"
        some (encode w (Value.map
          [("code", Value.int 200), ("data", resp), ("msg", Value.str "")]))

/-- Go `musicHandler` (main.go 430-450). -/
def musicHandler : Handler := fun _ _ g r =>
  let w := cors newResponse
  if r.method = "OPTIONS" then some w
  else
    let resp := responseData g.jsonMusic.length (recsValue g.jsonMusic)
    let w := setHeader w "Content-Type" "application/json"
    some (encode w (Value.map
      [("code", Value.int 200), ("data", resp), ("msg", Value.str "")]))

/-- Go `videoLongRecommendedHandler` (main.go 452-498). -/
def videoLongRecommendedHandler : Handler := fun lib _ g r =>
  let w := cors newResponse
  if r.method = "OPTIONS" then some w
  else
    let start := queryInt lib r "start" 0
    let pageSize := queryInt lib r "pageSize" 10
    match videoLongRecommendedPage g.jsonVideos start pageSize with
    | none => none
    | some (list, total) =>
      let resp := responseData total (recsValue list)
      let w := setHeader w "Content-Type" "application/json"
      some (encode w (Value.map
        [("code", Value.int 200), ("data", resp), ("msg", Value.str "")]))

/-- Go `videoCommentsHandler` (main.go 500-544). -/
def videoCommentsHandler : Handler := fun lib world g r =>
  let w := cors newResponse
  if r.method = "OPTIONS" then some w
  else
    let id := if r.query "id" = "" then "7260749400622894336" else r.query "id"
    let path := lib.filepathJoin [g.staticDir, "data", "comments", "video_id_" ++ id ++ ".json"]
    let w := logRead w ("os.ReadFile " ++ path)
    let fallbackID := "7260749400622894336"
    let fallbackPath :=
      lib.filepathJoin [g.staticDir, "data", "comments", "video_id_" ++ fallbackID ++ ".json"]
    let read : Response × Option Bytes :=
      match world.osReadFile path with
      | some data => (w, some data)
      | none => (logRead w ("os.ReadFile " ++ fallbackPath), world.osReadFile fallbackPath)
    match read with
    | (w, none) => some (httpError w "Comments not found" 404)
    | (w, some data) =>
      match lib.jsonUnmarshal data with
      | none => some (httpError w "Failed to parse comments" 500)
      | some comments =>
        let resp := Value.map [("code", Value.int 200), ("data", comments)]
        let w := setHeader w "Content-Type" "application/json"
        some (encode w resp)

/-- Go `videoPrivateHandler` (main.go 546-579). -/
def videoPrivateHandler : Handler := fun _ _ g r =>
  let w := cors newResponse
  if r.method = "OPTIONS" then some w
  else
    match videoPrivatePage g.jsonVideos with
    | none => none
    | some (list, total) =>
      let resp := responseData total (recsValue list)
      let w := setHeader w "Content-Type" "application/json"
      some (encode w (Value.map
        [("code", Value.int 200), ("data", resp), ("msg", Value.str "")]))

/-- Go `videoLikeHandler` (main.go 581-616). -/
def videoLikeHandler : Handler := fun _ _ g r =>
  let w := cors newResponse
  if r.method = "OPTIONS" then some w
  else
    match videoLikePage g.jsonVideos with
    | none => none
    | some (list, total) =>
      let resp := responseData total (recsValue list)
      let w := setHeader w "Content-Type" "application/json"
      some (encode w (Value.map
        [("code", Value.int 200), ("data", resp), ("msg", Value.str "")]))

/-- The body of the loop `for _, v := range userVideos` of `videoMyHandler`
(main.go 647-658). -/
def linkAuthor (lib : Lib) (jsonUsers : Obj) (v : Record) : Option Record :=
  match recGet v "author_user_id" with
  | some (Value.float authorIDNum) =>
    match mapGet jsonUsers (lib.sprintfF0 authorIDNum) with
    | some user => recSet v "author" user
    | none => some v
  | some (Value.str authorIDStr) =>
    match mapGet jsonUsers authorIDStr with
    | some user => recSet v "author" user
    | none => some v
  | _ => some v

/-- The user video list of `videoMyHandler` (main.go 638-660): read, decode, link
authors. -/
def readUserVideos (lib : Lib) (world : World) (g : Globals) (path : String) :
    Option (List Record) :=
  match world.osReadFile path with
  | none => some []
  | some data =>
    let userVideos := lib.jsonUnmarshalRecords data
    if userVideos.2 then userVideos.1.mapM (linkAuthor lib g.jsonUsers)
    else some userVideos.1

/-- Go `videoMyHandler` (main.go 618-685). -/
def videoMyHandler : Handler := fun lib world g r =>
  let w := cors newResponse
  if r.method = "OPTIONS" then some w
  else
    let pageNo := queryInt lib r "pageNo" 0
    let pageSize := queryInt lib r "pageSize" 10
    let path :=
      lib.filepathJoin [g.staticDir, "data", "user_video_list", "user-12345xiaolaohu.json"]
    let w := logRead w ("os.ReadFile " ++ path)
    match readUserVideos lib world g path with
    | none => none
    | some userVideos =>
      match videoMyPage userVideos pageNo pageSize with
      | none => none
      | some (list, total) =>
        let finalResp := Value.map
          [ ("code", Value.int 200),
            ("data", Value.map
              [ ("pageNo", Value.int pageNo),
                ("total", Value.int total),
                ("list", recsValue list) ]),
            ("msg", Value.str "") ]
        let w := setHeader w "Content-Type" "application/json"
        some (encode w finalResp)

/-- Go `videoHistoryHandler` (main.go 687-745). -/
def videoHistoryHandler : Handler := fun lib _ g r =>
  let w := cors newResponse
  if r.method = "OPTIONS" then some w
  else
    let pageNo := queryInt lib r "pageNo" 0
    let pageSize := queryInt lib r "pageSize" 10
    match videoHistoryPage g.jsonVideos pageNo pageSize with
    | none => none
    | some (list, total) =>
      let finalResp := Value.map
        [ ("code", Value.int 200),
          ("data", Value.map [("total", Value.int total), ("list", recsValue list)]),
          ("msg", Value.str "") ]
      let w := setHeader w "Content-Type" "application/json"
      some (encode w finalResp)

/-- Go `userPanelHandler` (main.go 747-773). -/
def userPanelHandler : Handler := fun _ _ g r =>
  let w := cors newResponse
  if r.method = "OPTIONS" then some w
  else
    let uid := "2739632844317827"
    let resp :=
      match mapGet g.jsonUsers uid with
      | some user => Value.map [("code", Value.int 200), ("data", user)]
      | none => Value.map [("code", Value.int 500), ("msg", Value.str "User not found")]
    let w := setHeader w "Content-Type" "application/json"
    some (encode w resp)

/-- Go `userCollectHandler` (main.go 775-814). -/
def userCollectHandler : Handler := fun _ _ g r =>
  let w := cors newResponse
  if r.method = "OPTIONS" then some w
  else
    match userCollectPage g.jsonVideos with
    | none => none
    | some (videoList, videoTotal) =>
      let finalResp := Value.map
        [ ("code", Value.int 200),
          ("data", Value.map
            [ ("video", Value.map
                [("total", Value.int videoTotal), ("list", recsValue videoList)]),
              ("music", Value.map
                [ ("total", Value.int g.jsonMusic.length),
                  ("list", recsValue g.jsonMusic) ]) ]),
          ("msg", Value.str "") ]
      let w := setHeader w "Content-Type" "application/json"
      some (encode w finalResp)

/-- Go `userVideoListHandler` (main.go 816-847). -/
def userVideoListHandler : Handler := fun lib world _ r =>
  let w := cors newResponse
  if r.method = "OPTIONS" then some w
  else
    let id := r.query "id"
    let filePath := "data/user_video_list/user-" ++ id ++ ".json"
    let w := logRead w ("fs.ReadFile " ++ filePath)
    match world.fsReadFile filePath with
    | none =>
      let finalResp := Value.map
        [("code", Value.int 500), ("msg", Value.str "User video list not found")]
      let w := setHeader w "Content-Type" "application/json"
      some (encode w finalResp)
    | some data =>
      let videos := (lib.jsonUnmarshal data).getD Value.null
      let finalResp := Value.map [("code", Value.int 200), ("data", videos)]
      let w := setHeader w "Content-Type" "application/json"
      some (encode w finalResp)

/-- Go `userFriendsHandler` (main.go 849-863). -/
def userFriendsHandler : Handler := fun _ _ g r =>
  let w := cors newResponse
  if r.method = "OPTIONS" then some w
  else
    let finalResp := Value.map
      [("code", Value.int 200), ("data", recsValue g.jsonUsersList)]
    let w := setHeader w "Content-Type" "application/json"
    some (encode w finalResp)

/-- Go `historyOtherHandler` (main.go 865-889). -/
def historyOtherHandler : Handler := fun lib _ _ r =>
  let w := cors newResponse
  if r.method = "OPTIONS" then some w
  else
    let pageNo := queryInt lib r "pageNo" 0
    let finalResp := Value.map
      [ ("code", Value.int 200),
        ("data", Value.map
          [("pageNo", Value.int pageNo), ("total", Value.int 0), ("list", Value.list [])]),
        ("msg", Value.str "") ]
    let w := setHeader w "Content-Type" "application/json"
    some (encode w finalResp)

/-- Go `postRecommendedHandler` (main.go 891-935). -/
def postRecommendedHandler : Handler := fun lib _ g r =>
  let w := cors newResponse
  if r.method = "OPTIONS" then some w
  else
    let pageNo := queryInt lib r "pageNo" 0
    let pageSize := queryInt lib r "pageSize" 10
    match postRecommendedPage g.jsonPosts pageNo pageSize with
    | none => none
    | some (list, total) =>
      let finalResp := Value.map
        [ ("code", Value.int 200),
          ("data", Value.map
            [ ("pageNo", Value.int pageNo),
              ("total", Value.int total),
              ("list", recsValue list) ]),
          ("msg", Value.str "") ]
      let w := setHeader w "Content-Type" "application/json"
      some (encode w finalResp)

/-- Go `shopRecommendedHandler` (main.go 937-977). -/
def shopRecommendedHandler : Handler := fun lib _ g r =>
  let w := cors newResponse
  if r.method = "OPTIONS" then some w
  else
    let pageNo := queryInt lib r "pageNo" 0
    let pageSize := queryInt lib r "pageSize" 10
    match shopRecommendedPage g.jsonGoods pageNo pageSize with
    | none => none
    | some (list, total) =>
      let finalResp := Value.map
        [ ("code", Value.int 200),
          ("data", Value.map [("total", Value.int total), ("list", recsValue list)]) ]
      let w := setHeader w "Content-Type" "application/json"
      some (encode w finalResp)

/-- The API routes registered by `main` (main.go 1013-1030). -/
def apiRoutes : List (String × Handler) :=
  [ ("/video/recommended", recommendedHandler),
    ("/video/long/recommended", videoLongRecommendedHandler),
    ("/video/comments", videoCommentsHandler),
    ("/video/private", videoPrivateHandler),
    ("/video/like", videoLikeHandler),
    ("/video/my", videoMyHandler),
    ("/video/history", videoHistoryHandler),
    ("/user/panel", userPanelHandler),
    ("/user/collect", userCollectHandler),
    ("/user/video_list", userVideoListHandler),
    ("/user/friends", userFriendsHandler),
    ("/historyOther", historyOtherHandler),
    ("/post/recommended", postRecommendedHandler),
    ("/shop/recommended", shopRecommendedHandler),
    ("/music", musicHandler) ]

/-! ## SPA handler -/

/-- The parts of `fs.FileInfo` the program looks at. -/
structure FileInfo where
  /-- The answer of `info.IsDir()`. -/
  isDir : Bool
  /-- The answer of `info.ModTime()`, as seconds. -/
  modTime : Nat

/-- An opened `fs.File`. -/
structure File where
  /-- The answer of `f.Stat()`. -/
  stat : Except Err FileInfo
  /-- The answer of `io.ReadAll(f)`, `none` on error. -/
  readAll : Option Bytes

/-- An `fs.FS`: the answer of `Open(name)`, `none` on error. -/
abbrev FileSystem := String → Option File

/-- Go `spaHandler` (main.go 21-24). -/
structure spaHandler where
  fileSystem : FileSystem
  indexPath : String

/-- The library call with which `spaHandler.ServeHTTP` answers a request. -/
inductive SpaAnswer where
  /-- The call `http.ServeContent(w, r, name, modTime, bytes.NewReader(content))`. -/
  | serveContent (name : String) (modTime : Nat) (content : Bytes)
  /-- The call `http.FileServer(http.FS(h.fileSystem)).ServeHTTP(w, r)`. -/
  | fileServer
  /-- The call `http.Error(w, msg, code)`. -/
  | error (msg : String) (code : Nat)
  deriving DecidableEq

/-- Go `spaHandler.serveIndex` (main.go 63-84). -/
def spaHandler.serveIndex (h : spaHandler) : SpaAnswer :=
  match h.fileSystem h.indexPath with
  | none => SpaAnswer.error "Index file not found" 500
  | some f =>
    match f.stat with
    | Except.error _ => SpaAnswer.error "Index file stat failed" 500
    | Except.ok info =>
      match f.readAll with
      | none => SpaAnswer.error "Failed to read index file" 500
      | some content => SpaAnswer.serveContent h.indexPath info.modTime content

/-- The logical path that `spaHandler.ServeHTTP` opens (main.go 28-36). -/
def spaHandler.logicalPath (h : spaHandler) (r : Request) : String :=
  let path := r.urlPath
  let path := if !startsWith path "/" then "/" ++ path else path
  let path := trimLeading path "/"
  if path = "" then h.indexPath else path

/-- Go `spaHandler.ServeHTTP` (main.go 26-61). -/
def spaHandler.ServeHTTP (h : spaHandler) (r : Request) : SpaAnswer :=
  match h.fileSystem (h.logicalPath r) with
  | none => h.serveIndex
  | some f =>
    match f.stat with
    | Except.error err => SpaAnswer.error err.msg 500
    | Except.ok info => if info.isDir then h.serveIndex else SpaAnswer.fileServer

/-- The status and the body net/http sends. -/
structure Served where
  status : Nat
  body : Bytes
  deriving DecidableEq

/-- Go `http.ServeContent`, as far as status and body go.  `pre` is the library's
evaluation of the conditional and range headers of the request (`If-Match`,
`If-None-Match`, `If-Modified-Since`, `Range`, ...): `some s` when such a header
decides the answer (304, 412, 206, 416), `none` when none applies.  Without one the
status is 200 and the content is copied to the body unless the method is HEAD. -/
def httpServeContent (pre : Request → Nat → Bytes → Option Served) (r : Request)
    (modTime : Nat) (content : Bytes) : Served :=
  match pre r modTime content with
  | some s => s
  | none => { status := 200, body := if r.method = "HEAD" then [] else content }

/-! ## A concrete library and operating system for evaluation

The theorems below quantify over every `Lib` and `World`.  To evaluate the program
on concrete inputs this section fixes one library: `%.0f` exactly, `%d` on plain
signed decimal strings, `url.PathEscape` exactly, ASCII lower-casing, `filepath.Rel`
and `filepath.Join` on clean slash-separated paths.  The digest is not computed:
`md5Hex` is a stand-in, and no statement depends on which function it is. -/

/-- The quotient `m / 2^k` rounded to the nearest integer, ties to even. -/
def roundHalfEven (m k : Nat) : Nat :=
  if k = 0 then m
  else
    let q := m / 2 ^ k
    let rem := m % 2 ^ k
    let half := 2 ^ (k - 1)
    if rem > half ∨ (rem = half ∧ q % 2 = 1) then q + 1 else q

/-- The decimal digits of a natural number. -/
def decimal (n : Nat) : String := ⟨Nat.toDigits 10 n⟩

/-- Go `fmt.Sprintf("%.0f", x)`: the value rounded to an integer, ties to even. -/
def formatF0 (x : Float64) : String :=
  let sign := x.bits / 2 ^ 63 % 2
  let e := x.bits / 2 ^ 52 % 2 ^ 11
  let m := x.bits % 2 ^ 52
  if e = 2047 then
    if m ≠ 0 then "NaN" else if sign = 1 then "-Inf" else "+Inf"
  else
    let mant := if e = 0 then m else 2 ^ 52 + m
    let ex := if e = 0 then 1 else e
    let n := if ex ≥ 1075 then mant * 2 ^ (ex - 1075) else roundHalfEven mant (1075 - ex)
    (if sign = 1 then "-" else "") ++ decimal n

/-- The value of a string of decimal digits, `none` when some character is not a
digit or the string is empty. -/
def digitsValue : List Char → Option Nat
  | [] => none
  | cs =>
    cs.foldl (fun acc c =>
      match acc with
      | none => none
      | some n => if c.isDigit then some (10 * n + (c.toNat - 48)) else none) (some 0)

/-- Go `fmt.Sscanf(s, "%d", &n)` on a plain signed decimal string that fits 64 bits. -/
def scanDecimal (s : String) : Option Int :=
  let v : Option Int :=
    match s.data with
    | '-' :: ds => (digitsValue ds).map fun n => -(n : Int)
    | '+' :: ds => (digitsValue ds).map fun n => (n : Int)
    | ds => (digitsValue ds).map fun n => (n : Int)
  match v with
  | some n => if -(2 ^ 63) ≤ n ∧ n < 2 ^ 63 then some n else none
  | none => none

/-- ASCII lower-casing of one character. -/
def lowerChar (c : Char) : Char :=
  if 65 ≤ c.toNat ∧ c.toNat ≤ 90 then Char.ofNat (c.toNat + 32) else c

/-- Go `strings.ToLower` on ASCII letters. -/
def asciiLower (s : String) : String := ⟨s.data.map lowerChar⟩

/-- The test `shouldEscape(c, encodePathSegment)` of net/url on one byte. -/
def shouldEscape (b : Nat) : Bool :=
  !((48 ≤ b ∧ b ≤ 57) ∨ (65 ≤ b ∧ b ≤ 90) ∨ (97 ≤ b ∧ b ≤ 122) ∨
    b = 45 ∨ b = 95 ∨ b = 46 ∨ b = 126 ∨
    b = 36 ∨ b = 38 ∨ b = 43 ∨ b = 58 ∨ b = 61 ∨ b = 64)

/-- An upper-case hexadecimal digit. -/
def hexUpper (n : Nat) : Char := if n < 10 then Char.ofNat (48 + n) else Char.ofNat (55 + n)

/-- The escape of one byte by `url.PathEscape`. -/
def escapeByte (b : Nat) : List Char :=
  if shouldEscape b then ['%', hexUpper (b / 16), hexUpper (b % 16)] else [Char.ofNat b]

/-- Go `url.PathEscape`. -/
def urlPathEscape (s : String) : String :=
  ⟨(s.data.flatMap fun c => (String.utf8EncodeChar c).map UInt8.toNat).flatMap escapeByte⟩

/-- Go `filepath.Rel(base, target)` for a clean `target` below a clean `base`. -/
def relBelow (base target : String) : Option String :=
  if target = base then some "."
  else if startsWith target (base ++ "/") then some (trimLeading target (base ++ "/"))
  else none

/-- The library used for evaluation. -/
def evalLib : Lib :=
  { sprintfF0 := formatF0
    sscanfD := scanDecimal
    md5Hex := fun s => "md5(" ++ s ++ ")"
    filepathRel := relBelow
    toLower := asciiLower
    pathEscape := urlPathEscape
    filepathJoin := fun parts => stringsJoin parts "/"
    jsonUnmarshal := fun _ => none
    jsonUnmarshalRecords := fun _ => ([], false) }

/-- An operating system with no files at all. -/
def emptyWorld : World :=
  { fsReadFile := fun _ => none
    osReadFile := fun _ => none
    walkEvents := fun root => [WalkEvent.failure root { notExist := true, msg := "no such file" }] }

/-- A GET request without query parameters. -/
def plainGet (urlPath : String) : Request :=
  { method := "GET", urlPath := urlPath, query := fun _ => "" }

/-- The user record of the scenario "user 42 is Ann". -/
def annRecord : Obj := [("uid", Value.str "42"), ("nickname", Value.str "Ann")]

/-- The video record of the scenario: `author_user_id` is the float64 `42.0`. -/
def annVideo : Obj := [("author_user_id", Value.float ⟨0x4045000000000000⟩)]

/-- A video record that names no author id but already carries an `author` field. -/
def signedVideo : Obj := [("author", Value.str "x")]

/-- The evaluation library with a decoder that knows three documents: `[1]` is the
user collection of the scenario, `[2]` its video collection, `[3]` a video collection
holding `signedVideo`. -/
def annLib : Lib :=
  { evalLib with
    jsonUnmarshalRecords := fun data =>
      if data = [1] then ([some annRecord], true)
      else if data = [2] then ([some annVideo], true)
      else if data = [3] then ([some signedVideo], true)
      else ([], false) }

/-- An operating system whose asset tree holds `data/users.json` and
`data/videos.json` with the given contents. -/
def dataWorld (users videos : Bytes) : World :=
  { emptyWorld with
    fsReadFile := fun name =>
      if name = "data/users.json" then some users
      else if name = "data/videos.json" then some videos
      else none }

/-- A media root `media` with the file `a.mp4`, whose walk then fails with a
not-exist error on the sub-directory `media/gone`. -/
def vanishingWorld : World :=
  { emptyWorld with
    walkEvents := fun _ =>
      [ WalkEvent.entry "media" "media" true,
        WalkEvent.entry "media/a.mp4" "a.mp4" false,
        WalkEvent.entry "media/gone" "gone" true,
        WalkEvent.failure "media/gone" { notExist := true, msg := "open media/gone: no such file or directory" } ] }

/-- An asset tree that holds only `index.html`, two bytes long. -/
def indexOnly : FileSystem := fun name =>
  if name = "index.html" then
    some { stat := Except.ok { isDir := false, modTime := 1 }, readAll := some [60, 62] }
  else none

/-- An asset tree whose `index.html` opens and reads but cannot be stat-ed. -/
def indexNoStat : FileSystem := fun name =>
  if name = "index.html" then
    some { stat := Except.error { notExist := false, msg := "stat failed" },
           readAll := some [60, 62] }
  else none

/-! ## Definitions in the words of the specification -/

/-- The page in the words of the specification: the collection with the first `start`
elements dropped and then at most `pageSize` elements taken. -/
def dropTakePage {α : Type} (xs : List α) (start pageSize : Int) : List α :=
  (xs.drop start.toNat).take pageSize.toNat

/-- What the file-name theorems use of `strings.ToLower`: it maps the string rune by
rune with `f`, the dot is the only rune that becomes the dot, and the path separator
stays the path separator. -/
def lowersBy (toLower : String → String) (f : Char → Char) : Prop :=
  (∀ s : String, toLower s = ⟨s.data.map f⟩) ∧
  (∀ c : Char, f c = '.' ↔ c = '.') ∧
  f pathSeparator = pathSeparator

/-- The value at `video.play_addr.<key>` of a record. -/
def playAddr (r : Obj) (key : String) : Option Value :=
  match mapGet r "video" with
  | some (Value.map video) =>
    match mapGet video "play_addr" with
    | some (Value.map addr) => mapGet addr key
    | _ => none
  | _ => none

/-- The bytes of a string, which are what a Go string holds: its UTF-8 encoding. -/
def utf8Bytes (s : String) : List Nat :=
  s.data.flatMap fun c => (String.utf8EncodeChar c).map UInt8.toNat

/-- The value of a hexadecimal digit, as `unhex` of net/url. -/
def unhex (c : Char) : Option Nat :=
  if 48 ≤ c.toNat ∧ c.toNat ≤ 57 then some (c.toNat - 48)
  else if 97 ≤ c.toNat ∧ c.toNat ≤ 102 then some (c.toNat - 97 + 10)
  else if 65 ≤ c.toNat ∧ c.toNat ≤ 70 then some (c.toNat - 65 + 10)
  else none

/-- Percent-decoding of net/url for a path segment, on the runes of the escaped
string: `%XX` becomes the byte `XX`, every other rune stands for its own bytes; `none`
on a malformed escape. -/
def unescapeChars : List Char → Option (List Nat)
  | [] => some []
  | c :: rest =>
    if c = '%' then
      match rest with
      | a :: b :: rest2 =>
        match unhex a, unhex b, unescapeChars rest2 with
        | some x, some y, some bytes => some ((16 * x + y) :: bytes)
        | _, _, _ => none
      | _ => none
    else
      (unescapeChars rest).map fun bytes =>
        (String.utf8EncodeChar c).map UInt8.toNat ++ bytes

/-- Go `url.PathUnescape`: the bytes of the decoded string, `none` on error. -/
def urlPathUnescape (s : String) : Option (List Nat) := unescapeChars s.data

/-- A walk without errors over a media root that holds `a.mp4` and, before it,
`intro.webm`. -/
def clipsWorld : World :=
  { emptyWorld with
    walkEvents := fun root =>
      [ WalkEvent.entry root root true,
        WalkEvent.entry (root ++ "/intro.webm") "intro.webm" false,
        WalkEvent.entry (root ++ "/a.mp4") "a.mp4" false ] }

/-- A walk without errors over a media root that holds `a.mp4` first and then a
directory `old` with `b.ogg` and a text file. -/
def archiveWorld : World :=
  { emptyWorld with
    walkEvents := fun root =>
      [ WalkEvent.entry root root true,
        WalkEvent.entry (root ++ "/a.mp4") "a.mp4" false,
        WalkEvent.entry (root ++ "/old") "old" true,
        WalkEvent.entry (root ++ "/old/b.ogg") "b.ogg" false,
        WalkEvent.entry (root ++ "/old/notes.txt") "notes.txt" false ] }

/-- The loaded state of the scenario "the video collection has 120 elements": 120
video records and nothing else. -/
def catalogue120 : Globals :=
  { initialGlobals "media" "dist" with jsonVideos := List.replicate 120 (some []) }

/-- A GET request for `/video/history` with the given `pageNo` and `pageSize`
parameters. -/
def historyRequest (pageNo pageSize : String) : Request :=
  { method := "GET", urlPath := "/video/history",
    query := fun key =>
      if key = "pageNo" then pageNo else if key = "pageSize" then pageSize else "" }

/-! # Theorems -/

/-! ## Arithmetic and slicing lemmas -/

theorem wrap_eq_self (x : Int) (h0 : -(2 ^ 63) ≤ x) (h1 : x < 2 ^ 63) : wrap x = x := by
  unfold wrap
  omega

theorem slice_eq_some {α : Type} (s : List α) (lo hi : Int) (h : inBounds s lo hi) :
    slice s lo hi = some ((s.drop lo.toNat).take (hi.toNat - lo.toNat)) := by
  unfold slice
  rw [if_pos h]

theorem slice_eq_none {α : Type} (s : List α) (lo hi : Int) (h : ¬ inBounds s lo hi) :
    slice s lo hi = none := by
  unfold slice
  rw [if_neg h]

theorem length_take_drop {α : Type} (s : List α) (lo hi : Int) (h : inBounds s lo hi) :
    (((s.drop lo.toNat).take (hi.toNat - lo.toNat)).length : Int) = hi - lo := by
  obtain ⟨h0, h1, h2⟩ := h
  rw [List.length_take, List.length_drop]
  omega

/-- The page of the `start`/`pageSize` handlers for arguments without sign or overflow. -/
theorem recommendedBounds_inBounds {α : Type} (xs : List α) (start pageSize : Int)
    (hs : 0 ≤ start) (hp : 0 ≤ pageSize) (ho : start + pageSize < 2 ^ 63) :
    inBounds xs (recommendedBounds xs.length start pageSize).1
        (recommendedBounds xs.length start pageSize).2 ∧
      (recommendedBounds xs.length start pageSize).2 -
          (recommendedBounds xs.length start pageSize).1 =
        min pageSize (max 0 ((xs.length : Int) - start)) := by
  have hw : wrap (start + pageSize) = start + pageSize := wrap_eq_self _ (by omega) ho
  unfold recommendedBounds inBounds
  simp only [hw]
  split_ifs <;> omega

theorem offsetSlice_length {α : Type} (xs : List α) (offset pageSize : Int)
    (hs : 0 ≤ offset) (hp : 0 ≤ pageSize) (ho : offset + pageSize < 2 ^ 63) :
    ∃ l, offsetSlice xs offset pageSize = some l ∧
      (l.length : Int) = min pageSize (max 0 ((xs.length : Int) - offset)) := by
  have hw : wrap (offset + pageSize) = offset + pageSize := wrap_eq_self _ (by omega) ho
  unfold offsetSlice
  simp only [hw]
  by_cases h : offset ≥ (xs.length : Int)
  · rw [if_pos h]
    refine ⟨[], rfl, ?_⟩
    simp only [List.length_nil, Int.Nat.cast_ofNat_Int]
    omega
  · rw [if_neg h]
    have hb : inBounds xs offset
        (if offset + pageSize > (xs.length : Int) then (xs.length : Int)
          else offset + pageSize) := by
      unfold inBounds
      split_ifs <;> omega
    refine ⟨_, slice_eq_some _ _ _ hb, ?_⟩
    rw [length_take_drop _ _ _ hb]
    split_ifs <;> omega

/-! ## Pagination -/

/-- C1 (amended): for every collection, every non-negative offset (`start`, or the
machine product `pageNo*pageSize`) and every non-negative size whose sum does not
overflow, the pagination step of `recommendedHandler`, `videoLongRecommendedHandler`,
`videoMyHandler`, `postRecommendedHandler` and `shopRecommendedHandler` returns a list
of length `min(size, max(0, len - offset))` and reports `total = len`. -/
theorem page_length_total {α : Type} (xs : List α) (offset size : Int)
    (hs : 0 ≤ offset) (hp : 0 ≤ size) (ho : offset + size < 2 ^ 63) :
    (∃ l, recommendedPage xs offset size = some (l, (xs.length : Int)) ∧
        (l.length : Int) = min size (max 0 ((xs.length : Int) - offset))) ∧
    (∃ l, videoLongRecommendedPage xs offset size = some (l, (xs.length : Int)) ∧
        (l.length : Int) = min size (max 0 ((xs.length : Int) - offset))) ∧
    ∀ pageNo : Int, wrap (pageNo * size) = offset →
      (∃ l, videoMyPage xs pageNo size = some (l, (xs.length : Int)) ∧
          (l.length : Int) = min size (max 0 ((xs.length : Int) - offset))) ∧
      (∃ l, postRecommendedPage xs pageNo size = some (l, (xs.length : Int)) ∧
          (l.length : Int) = min size (max 0 ((xs.length : Int) - offset))) ∧
      (∃ l, shopRecommendedPage xs pageNo size = some (l, (xs.length : Int)) ∧
          (l.length : Int) = min size (max 0 ((xs.length : Int) - offset))) := by
  obtain ⟨hb, hlen⟩ := recommendedBounds_inBounds xs offset size hs hp ho
  have hrec : ∃ l, recommendedPage xs offset size = some (l, (xs.length : Int)) ∧
      (l.length : Int) = min size (max 0 ((xs.length : Int) - offset)) := by
    refine ⟨(xs.drop (recommendedBounds xs.length offset size).1.toNat).take
      ((recommendedBounds xs.length offset size).2.toNat -
        (recommendedBounds xs.length offset size).1.toNat), ?_, ?_⟩
    · unfold recommendedPage
      simp only [slice_eq_some _ _ _ hb, Option.map_some']
    · rw [length_take_drop _ _ _ hb, hlen]
  refine ⟨hrec, ?_, ?_⟩
  · unfold videoLongRecommendedPage
    by_cases h : (xs.length : Int) > 0
    · simp only [h, if_true]
      exact hrec
    · simp only [h, if_false]
      refine ⟨[], rfl, ?_⟩
      simp only [List.length_nil, Int.Nat.cast_ofNat_Int]
      omega
  · intro pageNo hno
    obtain ⟨l, hl, hlen2⟩ := offsetSlice_length xs offset size hs hp ho
    unfold videoMyPage postRecommendedPage shopRecommendedPage
    simp only [hno, hl, Option.map_some']
    exact ⟨⟨l, rfl, hlen2⟩, ⟨l, rfl, hlen2⟩, ⟨l, rfl, hlen2⟩⟩

/-- Witness of C1: three posts, page 1 of size 2 is one record, total 3. -/
theorem page_length_total_witness :
    (0 : Int) ≤ 2 ∧ ∃ l, postRecommendedPage [10, 20, 30] 1 2 = some (l, 3) ∧
      (l.length : Int) = min 2 (max 0 (3 - 2)) :=
  ⟨by decide,
    ((page_length_total [10, 20, 30] 2 2 (by decide) (by decide) (by decide)).2.2 1
      (by decide)).2.1⟩

/-- C1 as stated fails: with no posts, `pageNo = 0` and `pageSize = -1` (offset
`0 * -1 = 0`, `len = 0`) `postRecommendedHandler` answers the empty list, whose length
0 is not `min(-1, max(0, 0 - 0)) = -1`. -/
theorem page_length_negative_size :
    postRecommendedPage ([] : List Nat) 0 (-1) = some ([], 0) ∧
    ¬ ∃ l, postRecommendedPage ([] : List Nat) 0 (-1) = some (l, 0) ∧
        (l.length : Int) = min (-1) (max 0 (0 - 0)) := by
  refine ⟨by decide, ?_⟩
  rintro ⟨l, _, h2⟩
  have h3 : min (-1 : Int) (max 0 (0 - 0)) = -1 := by decide
  rw [h3] at h2
  omega

/-- C2 (the code at the failing inputs): `start = -1` on an empty scan makes
`recommendedHandler` evaluate `videos[-1:0]`, and `pageNo = -1, pageSize = 1` on one
record makes the `pageNo` handlers evaluate `xs[-1:0]`; the bounds are out of range and
the handlers panic, as does `GET /video/recommended?start=-1` as a whole. -/
theorem negative_offset_panics :
    recommendedBounds 0 (-1) 10 = (-1, 0) ∧
    ¬ inBounds ([] : List Nat) (-1) 0 ∧
    recommendedPage ([] : List Nat) (-1) 10 = none ∧
    videoLongRecommendedPage [7] (-1) 10 = none ∧
    postRecommendedPage [7] (-1) 1 = none ∧
    shopRecommendedPage [7] (-1) 1 = none ∧
    videoMyPage [7] (-1) 1 = none ∧
    videoHistoryPage ([] : List Nat) (-1) 1 = none ∧
    recommendedHandler evalLib emptyWorld (initialGlobals "media" "dist")
      { method := "GET", urlPath := "/video/recommended",
        query := fun key => if key = "start" then "-1" else "" } = none := by
  refine ⟨by decide, by decide, by decide, by decide, by decide, by decide, by decide,
    by decide, rfl⟩

/-- C3 (the code at the failing input): with a single video, `videoPrivateHandler`
answers that video and `total = 1`, although no index `i` with `100 <= i < 110`
exists in the collection. -/
theorem videoPrivate_small_collection :
    videoPrivatePage [7] = some ([7], 1) ∧
    (∀ i : Nat, 100 ≤ i → i < 110 → ([7] : List Nat)[i]? = none) := by
  refine ⟨by decide, ?_⟩
  intro i h1 _
  simp only [List.getElem?_eq_none_iff, List.length_singleton]
  omega

/-- The window `[a, a+n)` of a list, element by element. -/
theorem getElem?_take_drop {α : Type} (s : List α) (a n j : Nat) :
    ((s.drop a).take n)[j]? = if j < n then s[a + j]? else none := by
  by_cases h : j < n
  · simp [h, List.getElem?_take, List.getElem?_drop]
  · simp [h, List.getElem?_take, List.getElem?_drop]

theorem bucket_eq {α : Type} (vids : List α) :
    videoLikePage vids = some ((vids.drop 200).take 150,
        (((vids.drop 200).take 150).length : Int)) ∧
    videoHistorySubset vids = some ((vids.drop 200).take 150,
        (((vids.drop 200).take 150).length : Int)) := by
  unfold videoLikePage videoHistorySubset
  by_cases h1 : (vids.length : Int) ≥ 350
  · have hb : inBounds vids 200 350 := ⟨by omega, by omega, h1⟩
    simp only [h1, if_true, slice_eq_some _ _ _ hb, Option.map_some']
    have : (Int.toNat 350 - Int.toNat 200) = 150 := by decide
    have h2 : Int.toNat 200 = 200 := by decide
    rw [this, h2, List.length_take, List.length_drop]
    have : min 150 (vids.length - 200) = 150 := by omega
    simp [this]
  · by_cases h2 : (vids.length : Int) > 200
    · have hb : inBounds vids 200 (vids.length : Int) := ⟨by omega, by omega, le_refl _⟩
      simp only [h1, h2, if_true, if_false, slice_eq_some _ _ _ hb, Option.map_some']
      have h3 : Int.toNat 200 = 200 := by decide
      have h4 : (vids.length : Int).toNat = vids.length := Int.toNat_natCast _
      rw [h3, h4]
      have h5 : List.take (vids.length - 200) (List.drop 200 vids) = List.drop 200 vids :=
        List.take_of_length_le (by rw [List.length_drop])
      have h6 : List.take 150 (List.drop 200 vids) = List.drop 200 vids :=
        List.take_of_length_le (by rw [List.length_drop]; omega)
      rw [h5, h6, List.length_drop]
      have : ((vids.length - 200 : Nat) : Int) = (vids.length : Int) - 200 := by omega
      simp [this]
    · simp only [h1, h2, if_false]
      have h6 : List.drop 200 vids = [] := List.drop_eq_nil_of_le (by omega)
      simp [h6]

/-- The window steps of `videoLikeHandler` and `videoHistoryHandler`: the `[200,350)`
bucket holds exactly the elements at the existing indices `200 <= i < 350`, in order,
and its length is `min(350,len) - min(200,len)`; the like step reports it as `total`;
whenever the history step answers, it reports that total whatever `pageNo` and
`pageSize` are, and it answers for every non-negative page that does not overflow; on
a collection of 120 elements the bucket is empty. -/
theorem like_history_bucket {α : Type} (vids : List α) :
    ∃ bucket : List α,
      (∀ j : Nat, bucket[j]? = if j < 150 then vids[200 + j]? else none) ∧
      (bucket.length : Int) = min 350 (vids.length : Int) - min 200 (vids.length : Int) ∧
      videoLikePage vids = some (bucket, (bucket.length : Int)) ∧
      videoHistorySubset vids = some (bucket, (bucket.length : Int)) ∧
      (∀ (pageNo pageSize : Int) (r : List α × Int),
        videoHistoryPage vids pageNo pageSize = some r → r.2 = (bucket.length : Int)) ∧
      (∀ pageNo pageSize : Int, 0 ≤ wrap (pageNo * pageSize) → 0 ≤ pageSize →
        wrap (pageNo * pageSize) + pageSize < 2 ^ 63 →
        ∃ l, videoHistoryPage vids pageNo pageSize = some (l, (bucket.length : Int))) ∧
      (vids.length = 120 → bucket = [] ∧ videoLikePage vids = some ([], 0) ∧
        ∀ pageNo pageSize : Int, 0 ≤ wrap (pageNo * pageSize) →
          videoHistoryPage vids pageNo pageSize = some ([], 0)) := by
  obtain ⟨hlike, hsub⟩ := bucket_eq vids
  have hrep : ∀ (pageNo pageSize : Int) (r : List α × Int),
      videoHistoryPage vids pageNo pageSize = some r →
        r.2 = (((vids.drop 200).take 150).length : Int) := by
    intro pageNo pageSize r hr
    unfold videoHistoryPage at hr
    simp only [hsub] at hr
    cases hs : offsetSlice (List.take 150 (List.drop 200 vids)) (wrap (pageNo * pageSize))
        pageSize with
    | none => simp [hs] at hr
    | some l =>
      simp only [hs, Option.map_some', Option.some.injEq] at hr
      rw [← hr]
  refine ⟨(vids.drop 200).take 150, getElem?_take_drop vids 200 150, ?_, hlike, hsub, hrep,
    ?_, ?_⟩
  · rw [List.length_take, List.length_drop]
    omega
  · intro pageNo pageSize h0 h1 h2
    obtain ⟨l, hl, _⟩ := offsetSlice_length ((vids.drop 200).take 150) _ _ h0 h1 h2
    refine ⟨l, ?_⟩
    unfold videoHistoryPage
    simp only [hsub, hl, Option.map_some']
  · intro h120
    have hnil : (vids.drop 200).take 150 = [] := by
      rw [List.drop_eq_nil_of_le (by omega)]
      rfl
    refine ⟨hnil, ?_, ?_⟩
    · rw [hlike, hnil]
      rfl
    · intro pageNo pageSize h0
      unfold videoHistoryPage
      simp only [hsub, hnil]
      unfold offsetSlice
      simp only [List.length_nil, Int.Nat.cast_ofNat_Int]
      rw [if_pos (by simpa using h0)]
      rfl

/-- An instance: 120 videos give total 0 and the empty list on `/video/like`. -/
theorem like_history_bucket_witness :
    (List.replicate 120 ()).length = 120 ∧
      videoLikePage (List.replicate 120 ()) = some ([], 0) :=
  ⟨by decide,
    (like_history_bucket (List.replicate 120 ())).choose_spec.2.2.2.2.2.2 (by decide)
      |>.2.1⟩


/-! ## Dataset loading -/

theorem mapGet_mapSet_self (m : Obj) (k : String) (v : Value) :
    mapGet (mapSet m k v) k = some v := by
  induction m with
  | nil => simp [mapSet, mapGet]
  | cons p rest ih =>
    obtain ⟨k', v'⟩ := p
    by_cases h : k' = k
    · simp [mapSet, mapGet, h]
    · simp [mapSet, mapGet, h, ih]

theorem mapGet_mapSet_ne (m : Obj) (k k1 : String) (v : Value) (hne : k1 ≠ k) :
    mapGet (mapSet m k v) k1 = mapGet m k1 := by
  have hne2 : ¬ k = k1 := fun h => hne h.symm
  induction m with
  | nil => simp [mapSet, mapGet, hne2]
  | cons p rest ih =>
    obtain ⟨k', v'⟩ := p
    by_cases h : k' = k
    · subst h
      simp [mapSet, mapGet, hne2]
    · by_cases h4 : k' = k1
      · subst h4
        simp [mapSet, mapGet, h]
      · simp [mapSet, mapGet, h, h4, ih]

/-- What `loadVideo` does to a record whose author id finds a user. -/
theorem loadVideo_match (lib : Lib) (jsonUsers : Obj) (v : Record) (x : Float64)
    (user : Value) (hid : recGet v "author_user_id" = some (Value.float x))
    (hu : mapGet jsonUsers (lib.sprintfF0 x) = some user) :
    ∃ v1, loadVideo lib jsonUsers v = some v1 ∧ recGet v1 "author" = some user := by
  cases v with
  | none => simp [recGet] at hid
  | some m =>
    simp only [recGet] at hid
    have h1 : mapGet (mapSet m "type" (Value.str "recommend-video")) "author_user_id" =
        some (Value.float x) := by
      rw [mapGet_mapSet_ne _ _ _ _ (by decide)]
      exact hid
    refine ⟨some (mapSet (mapSet m "type" (Value.str "recommend-video")) "author" user),
      ?_, ?_⟩
    · simp [loadVideo, recSet, recGet, h1, hu]
    · simp [recGet, mapGet_mapSet_self]

/-- What `loadVideo` does to a record whose author id finds no user, or that has no
numeric author id. -/
theorem loadVideo_no_match (lib : Lib) (jsonUsers : Obj) (v v1 : Record)
    (hno : ∀ x, recGet v "author_user_id" = some (Value.float x) →
      mapGet jsonUsers (lib.sprintfF0 x) = none)
    (h : loadVideo lib jsonUsers v = some v1) :
    recGet v1 "author" = recGet v "author" := by
  cases v with
  | none => simp [loadVideo, recSet] at h
  | some m =>
    have hkeep : recGet (some (mapSet m "type" (Value.str "recommend-video"))) "author" =
        recGet (some m) "author" := by
      simp only [recGet]
      exact mapGet_mapSet_ne _ _ _ _ (by decide)
    have hid : mapGet (mapSet m "type" (Value.str "recommend-video")) "author_user_id" =
        mapGet m "author_user_id" := mapGet_mapSet_ne _ _ _ _ (by decide)
    simp only [loadVideo, recSet, recGet, hid] at h
    simp only [recGet] at hno
    cases hg : mapGet m "author_user_id" with
    | none =>
      simp only [hg, Option.some.injEq] at h
      rw [← h]; exact hkeep
    | some val =>
      cases val with
      | float x =>
        have hx := hno x hg
        simp only [hg, hx, Option.some.injEq] at h
        rw [← h]; exact hkeep
      | null => simp only [hg, Option.some.injEq] at h; rw [← h]; exact hkeep
      | bool b => simp only [hg, Option.some.injEq] at h; rw [← h]; exact hkeep
      | int n => simp only [hg, Option.some.injEq] at h; rw [← h]; exact hkeep
      | str s => simp only [hg, Option.some.injEq] at h; rw [← h]; exact hkeep
      | list xs => simp only [hg, Option.some.injEq] at h; rw [← h]; exact hkeep
      | map kvs => simp only [hg, Option.some.injEq] at h; rw [← h]; exact hkeep

/-- The loop of `loadJsonData` appends one processed record per input record. -/
theorem loadVideos_spec (lib : Lib) (jsonUsers : Obj) :
    ∀ (videos acc out : List Record), loadVideos lib jsonUsers videos acc = some out →
      out.length = acc.length + videos.length ∧
      (∀ i, i < acc.length → out[i]? = acc[i]?) ∧
      ∀ i v, videos[i]? = some v →
        ∃ v1, out[acc.length + i]? = some v1 ∧ loadVideo lib jsonUsers v = some v1 := by
  intro videos
  induction videos with
  | nil =>
    intro acc out h
    simp only [loadVideos, Option.some.injEq] at h
    subst h
    simp
  | cons v rest ih =>
    intro acc out h
    simp only [loadVideos] at h
    cases hv : loadVideo lib jsonUsers v with
    | none => simp [hv] at h
    | some v1 =>
      simp only [hv] at h
      obtain ⟨hlen, hpre, hrest⟩ := ih (acc ++ [v1]) out h
      refine ⟨?_, ?_, ?_⟩
      · rw [hlen, List.length_append, List.length_singleton, List.length_cons]
        omega
      · intro i hi
        rw [hpre i (by simp; omega), List.getElem?_append_left hi]
      · intro i w hw
        cases i with
        | zero =>
          simp only [List.getElem?_cons_zero, Option.some.injEq] at hw
          subst hw
          refine ⟨v1, ?_, hv⟩
          rw [Nat.add_zero, hpre acc.length (by simp)]
          simp
        | succ j =>
          simp only [List.getElem?_cons_succ] at hw
          obtain ⟨w1, hw1, hw2⟩ := hrest j w hw
          refine ⟨w1, ?_, hw2⟩
          simp only [List.length_append, List.length_singleton] at hw1
          rw [← hw1]
          congr 1
          omega

theorem loadUsers_jsonVideos (lib : Lib) (w : World) (g : Globals) :
    (loadUsers lib w g).jsonVideos = g.jsonVideos := by
  unfold loadUsers
  cases w.fsReadFile "data/users.json" with
  | none => rfl
  | some b =>
    dsimp only
    split_ifs <;> rfl

theorem loadPosts_jsonVideos (lib : Lib) (w : World) (g : Globals) :
    (loadPosts lib w g).jsonVideos = g.jsonVideos := by
  unfold loadPosts
  cases w.fsReadFile "data/posts.json" <;> rfl

theorem loadGoods_jsonVideos (lib : Lib) (w : World) (g : Globals) :
    (loadGoods lib w g).jsonVideos = g.jsonVideos := by
  unfold loadGoods
  cases w.fsReadFile "data/goods.json" <;> rfl

/-- The videos block of `loadJsonData` runs the loop on the decoded records with the
user index that is in place when `loadJsonData` returns. -/
theorem loadJsonData_unfold (lib : Lib) (w : World) (g g1 : Globals) (videosBytes : Bytes)
    (hload : loadJsonData lib w g = some g1)
    (hread : readVideosBytes w = some videosBytes)
    (hok : (lib.jsonUnmarshalRecords videosBytes).2 = true) :
    loadVideos lib g1.jsonUsers (lib.jsonUnmarshalRecords videosBytes).1 g.jsonVideos =
      some g1.jsonVideos := by
  have hv : (loadGoods lib w (loadPosts lib w (loadUsers lib w g))).jsonVideos =
      g.jsonVideos := by
    rw [loadGoods_jsonVideos, loadPosts_jsonVideos, loadUsers_jsonVideos]
  unfold loadJsonData loadVideosBlock at hload
  simp only [hread, hok, if_true] at hload
  rw [hv] at hload
  cases hl : loadVideos lib (loadGoods lib w (loadPosts lib w (loadUsers lib w g))).jsonUsers
      (lib.jsonUnmarshalRecords videosBytes).1 g.jsonVideos with
  | none => simp [hl] at hload
  | some out =>
    simp only [hl, Option.some.injEq] at hload
    rw [← hload]
    exact hl

/-- C5: after `loadJsonData`, every video record of the decoded video file whose
numeric `author_user_id`, rendered with `%.0f`, is a key of the user index carries an
`author` field equal to the record the index holds for that key. -/
theorem loadJsonData_links_author (lib : Lib) (w : World) (g g1 : Globals)
    (videosBytes : Bytes)
    (hload : loadJsonData lib w g = some g1)
    (hread : readVideosBytes w = some videosBytes)
    (hok : (lib.jsonUnmarshalRecords videosBytes).2 = true) :
    g1.jsonVideos.length =
        g.jsonVideos.length + (lib.jsonUnmarshalRecords videosBytes).1.length ∧
    ∀ (i : Nat) (v : Record) (x : Float64) (user : Value),
      (lib.jsonUnmarshalRecords videosBytes).1[i]? = some v →
      recGet v "author_user_id" = some (Value.float x) →
      mapGet g1.jsonUsers (lib.sprintfF0 x) = some user →
      ∃ v1, g1.jsonVideos[g.jsonVideos.length + i]? = some v1 ∧
        recGet v1 "author" = some user := by
  obtain ⟨hlen, _, hrec⟩ := loadVideos_spec lib g1.jsonUsers _ _ _
    (loadJsonData_unfold lib w g g1 videosBytes hload hread hok)
  refine ⟨hlen, ?_⟩
  intro i v x user hv hid hu
  obtain ⟨v1, hv1, hl⟩ := hrec i v hv
  obtain ⟨v2, hv2, hauthor⟩ := loadVideo_match lib g1.jsonUsers v x user hid hu
  rw [hl, Option.some.injEq] at hv2
  subst hv2
  exact ⟨v1, hv1, hauthor⟩

/-- C6 (amended): after `loadJsonData`, a video record of the decoded video file whose
author id finds no user in the index, or that has no numeric `author_user_id`, has
its `author` field exactly as in the input: absent when the input record has none. -/
theorem loadJsonData_keeps_author (lib : Lib) (w : World) (g g1 : Globals)
    (videosBytes : Bytes)
    (hload : loadJsonData lib w g = some g1)
    (hread : readVideosBytes w = some videosBytes)
    (hok : (lib.jsonUnmarshalRecords videosBytes).2 = true) :
    ∀ (i : Nat) (v : Record),
      (lib.jsonUnmarshalRecords videosBytes).1[i]? = some v →
      (∀ x, recGet v "author_user_id" = some (Value.float x) →
        mapGet g1.jsonUsers (lib.sprintfF0 x) = none) →
      ∃ v1, g1.jsonVideos[g.jsonVideos.length + i]? = some v1 ∧
        recGet v1 "author" = recGet v "author" ∧
        (recGet v "author" = none → recGet v1 "author" = none) := by
  obtain ⟨_, _, hrec⟩ := loadVideos_spec lib g1.jsonUsers _ _ _
    (loadJsonData_unfold lib w g g1 videosBytes hload hread hok)
  intro i v hv hno
  obtain ⟨v1, hv1, hl⟩ := hrec i v hv
  have hkeep := loadVideo_no_match lib g1.jsonUsers v v1 hno hl
  exact ⟨v1, hv1, hkeep, fun h => by rw [hkeep, h]⟩


/-- The scenario of C5 evaluated: the state `loadJsonData` leaves when the user file
holds Ann (uid "42") and the video file one record with `author_user_id` 42.0. -/
theorem loadJsonData_ann :
    loadJsonData annLib (dataWorld [1] [2]) (initialGlobals "media" "dist") =
      some { mediaDir := "media", staticDir := "dist",
             jsonVideos := [some [ ("author_user_id", Value.float ⟨0x4045000000000000⟩),
                                   ("type", Value.str "recommend-video"),
                                   ("author", Value.map annRecord) ]],
             jsonMusic := [], jsonUsers := [("42", Value.map annRecord)],
             jsonUsersList := [some annRecord], jsonPosts := [], jsonGoods := [] } := by
  rfl

/-- Witness of C5: user "42" is Ann, the video has `author_user_id` 42.0, and after
the load the video's `author` field is the Ann record. -/
theorem loadJsonData_links_author_witness :
    ∃ g1 v1, loadJsonData annLib (dataWorld [1] [2]) (initialGlobals "media" "dist") = some g1 ∧
      g1.jsonVideos[0]? = some v1 ∧ recGet v1 "author" = some (Value.map annRecord) := by
  obtain ⟨v1, h1, h2⟩ := (loadJsonData_links_author annLib (dataWorld [1] [2])
    (initialGlobals "media" "dist") _ [2] loadJsonData_ann rfl rfl).2 0 (some annVideo)
    ⟨0x4045000000000000⟩ (Value.map annRecord) rfl rfl rfl
  exact ⟨_, v1, loadJsonData_ann, h1, h2⟩

/-- C6 as stated fails: a video record without `author_user_id` that already carries
`"author": "x"` in the video file still carries it after the load. -/
theorem loadJsonData_author_present_without_match :
    ∃ g1 v1, loadJsonData annLib (dataWorld [1] [3]) (initialGlobals "media" "dist") = some g1 ∧
      (annLib.jsonUnmarshalRecords [3]).1 = [some signedVideo] ∧
      recGet (some signedVideo) "author_user_id" = none ∧
      g1.jsonVideos[0]? = some v1 ∧ recGet v1 "author" = some (Value.str "x") ∧
      recGet v1 "author" ≠ none :=
  ⟨_, _, rfl, rfl, rfl, rfl, rfl, by
    show recGet (some [("author", Value.str "x"), ("type", Value.str "recommend-video")])
      "author" ≠ none
    simp [recGet, mapGet]⟩

/-- Witness of C6: the record `signedVideo` names no author id, and its `author`
field after the load is the one of the input. -/
theorem loadJsonData_keeps_author_witness :
    ∃ g1 v1, loadJsonData annLib (dataWorld [1] [3]) (initialGlobals "media" "dist") = some g1 ∧
      g1.jsonVideos[0]? = some v1 ∧
      recGet v1 "author" = recGet (some signedVideo) "author" := by
  have hload : loadJsonData annLib (dataWorld [1] [3]) (initialGlobals "media" "dist") =
      some { mediaDir := "media", staticDir := "dist",
             jsonVideos := [some [("author", Value.str "x"),
                                  ("type", Value.str "recommend-video")]],
             jsonMusic := [], jsonUsers := [("42", Value.map annRecord)],
             jsonUsersList := [some annRecord], jsonPosts := [], jsonGoods := [] } := rfl
  obtain ⟨v1, h1, h2, _⟩ := loadJsonData_keeps_author annLib (dataWorld [1] [3])
    (initialGlobals "media" "dist") _ [3] hload rfl rfl 0 (some signedVideo) rfl
    (fun x hx => by simp [recGet, mapGet, signedVideo] at hx)
  exact ⟨_, v1, hload, h1, h2⟩

/-! ## Media scan -/

/-- C7 (the code at the failing input): the walk delivers `media/a.mp4` and then a
not-exist error for the sub-directory `media/gone`, a path different from the media
root; `scanMediaVideos` returns the record collected so far and a nil error. -/
theorem scanMediaVideos_swallows_not_exist :
    scanMediaVideos evalLib vanishingWorld "media" =
      ([mediaRecord "md5(a.mp4)" "a" "/media/a.mp4" ""], none) := by
  rfl

/-! ## SPA handler -/

/-- C8 (amended): when the index document opens, stats and reads, and the logical
path of the request fails to open or opens as a directory, `spaHandler.ServeHTTP`
answers by passing the index document's name, modification time and full content to
`http.ServeContent`, and not with the static file server; for a request that is not
HEAD and has no conditional or range header deciding the answer, that is status 200
with a body identical to the index document's content. -/
theorem spa_fallback (h : spaHandler) (r : Request) (f : File) (info : FileInfo)
    (content : Bytes)
    (hopen : h.fileSystem h.indexPath = some f)
    (hstat : f.stat = Except.ok info)
    (hread : f.readAll = some content)
    (hmiss : h.fileSystem (h.logicalPath r) = none ∨
      ∃ d dinfo, h.fileSystem (h.logicalPath r) = some d ∧ d.stat = Except.ok dinfo ∧
        dinfo.isDir = true) :
    h.ServeHTTP r = SpaAnswer.serveContent h.indexPath info.modTime content ∧
    h.ServeHTTP r ≠ SpaAnswer.fileServer ∧
    ∀ pre : Request → Nat → Bytes → Option Served,
      pre r info.modTime content = none → r.method ≠ "HEAD" →
      httpServeContent pre r info.modTime content = { status := 200, body := content } := by
  have hidx : h.serveIndex = SpaAnswer.serveContent h.indexPath info.modTime content := by
    simp [spaHandler.serveIndex, hopen, hstat, hread]
  have hserve : h.ServeHTTP r = SpaAnswer.serveContent h.indexPath info.modTime content := by
    rcases hmiss with hnone | ⟨d, dinfo, hd, hds, hdir⟩
    · simp [spaHandler.ServeHTTP, hnone, hidx]
    · simp [spaHandler.ServeHTTP, hd, hds, hdir, hidx]
  refine ⟨hserve, ?_, ?_⟩
  · rw [hserve]
    exact fun hh => SpaAnswer.noConfusion hh
  · intro pre hpre hm
    simp [httpServeContent, hpre, hm]

/-- Witness of C8: `GET /missing` on an asset tree that holds only `index.html`. -/
theorem spa_fallback_witness :
    spaHandler.ServeHTTP { fileSystem := indexOnly, indexPath := "index.html" }
        (plainGet "/missing") = SpaAnswer.serveContent "index.html" 1 [60, 62] ∧
      httpServeContent (fun _ _ _ => none) (plainGet "/missing") 1 [60, 62] =
        { status := 200, body := [60, 62] } :=
  have h := spa_fallback { fileSystem := indexOnly, indexPath := "index.html" }
    (plainGet "/missing")
    { stat := Except.ok { isDir := false, modTime := 1 }, readAll := some [60, 62] }
    { isDir := false, modTime := 1 } [60, 62] rfl rfl rfl (Or.inl rfl)
  ⟨h.1, h.2.2 (fun _ _ _ => none) rfl (by decide)⟩

/-- C8 as stated fails: for `HEAD /missing` on an asset tree that holds only
`index.html`, the index document is served with status 200 but the body is empty,
not the two bytes of the index document; and when the index document opens and reads
but cannot be stat-ed, `GET /missing` is answered with `http.Error` 500. -/
theorem spa_fallback_head_request :
    spaHandler.ServeHTTP { fileSystem := indexOnly, indexPath := "index.html" }
        { method := "HEAD", urlPath := "/missing", query := fun _ => "" } =
      SpaAnswer.serveContent "index.html" 1 [60, 62] ∧
    httpServeContent (fun _ _ _ => none)
        { method := "HEAD", urlPath := "/missing", query := fun _ => "" } 1 [60, 62] =
      { status := 200, body := [] } ∧
    (httpServeContent (fun _ _ _ => none)
        { method := "HEAD", urlPath := "/missing", query := fun _ => "" } 1 [60, 62]).body ≠
      [60, 62] ∧
    spaHandler.ServeHTTP { fileSystem := indexNoStat, indexPath := "index.html" }
        (plainGet "/missing") = SpaAnswer.error "Index file stat failed" 500 := by
  decide

/-! ## Response envelopes and preflight requests -/

/-- C9 (the code at the failing input): a plain `GET /shop/recommended` is answered
with an object that has the keys `code` and `data` and no key `msg`. -/
theorem shopRecommended_envelope_lacks_msg :
    shopRecommendedHandler evalLib emptyWorld (initialGlobals "media" "dist")
        (plainGet "/shop/recommended") =
      some { header := [ ("Access-Control-Allow-Origin", "*"),
                         ("Access-Control-Allow-Headers", "Content-Type"),
                         ("Content-Type", "application/json") ],
             status := none,
             body := Body.json (Value.map
               [ ("code", Value.int 200),
                 ("data", Value.map [("total", Value.int 0), ("list", Value.list [])]) ]),
             reads := [] } ∧
    mapGet [ ("code", Value.int 200),
             ("data", Value.map [("total", Value.int 0), ("list", Value.list [])]) ] "msg" =
      none := by
  exact ⟨rfl, rfl⟩

/-- C10: every API handler registered by `main` answers a request whose method is
OPTIONS with the same response whatever the library, the operating system, the loaded
data and the rest of the request are: nothing written to the body, no status set (so
200), the headers `Access-Control-Allow-Origin: *` and
`Access-Control-Allow-Headers: Content-Type` and no other header (no `Content-Type`),
and no file-system access. -/
theorem options_preflight (route : String × Handler) (hin : route ∈ apiRoutes)
    (lib : Lib) (world : World) (g : Globals) (r : Request) (hm : r.method = "OPTIONS") :
    route.2 lib world g r = some (cors newResponse) ∧
    (cors newResponse).body = Body.empty ∧
    (cors newResponse).status = none ∧
    statusCode (cors newResponse) = 200 ∧
    (cors newResponse).header =
      [("Access-Control-Allow-Origin", "*"), ("Access-Control-Allow-Headers", "Content-Type")] ∧
    getHeader (cors newResponse) "Content-Type" = none ∧
    (cors newResponse).reads = [] := by
  refine ⟨?_, rfl, rfl, rfl, by decide, by decide, rfl⟩
  simp only [apiRoutes, List.mem_cons, List.mem_singleton, List.not_mem_nil, or_false] at hin
  rcases hin with h | h | h | h | h | h | h | h | h | h | h | h | h | h | h <;> subst h
  · simp [recommendedHandler, hm]
  · simp [videoLongRecommendedHandler, hm]
  · simp [videoCommentsHandler, hm]
  · simp [videoPrivateHandler, hm]
  · simp [videoLikeHandler, hm]
  · simp [videoMyHandler, hm]
  · simp [videoHistoryHandler, hm]
  · simp [userPanelHandler, hm]
  · simp [userCollectHandler, hm]
  · simp [userVideoListHandler, hm]
  · simp [userFriendsHandler, hm]
  · simp [historyOtherHandler, hm]
  · simp [postRecommendedHandler, hm]
  · simp [shopRecommendedHandler, hm]
  · simp [musicHandler, hm]

/-- Witness of C10: `OPTIONS /video/my` reads no file and writes no body. -/
theorem options_preflight_witness :
    videoMyHandler evalLib emptyWorld (initialGlobals "media" "dist")
        { method := "OPTIONS", urlPath := "/video/my", query := fun _ => "" } =
      some { header := [ ("Access-Control-Allow-Origin", "*"),
                         ("Access-Control-Allow-Headers", "Content-Type") ],
             status := none, body := Body.empty, reads := [] } :=
  (options_preflight ("/video/my", videoMyHandler) (by simp [apiRoutes]) evalLib emptyWorld
    (initialGlobals "media" "dist")
    { method := "OPTIONS", urlPath := "/video/my", query := fun _ => "" } rfl).1


/-- The nine list handlers other than `shopRecommendedHandler` answer every request
that is not OPTIONS, when they answer without an error status, with the envelope
`{code: 200, data: {total, list, ...}, msg: ""}`. -/
theorem list_envelopes (lib : Lib) (world : World) (g : Globals) (r : Request)
    (w : Response) (hm : r.method ≠ "OPTIONS") (hs : w.status = none)
    (hw : recommendedHandler lib world g r = some w ∨
      videoLongRecommendedHandler lib world g r = some w ∨
      videoPrivateHandler lib world g r = some w ∨
      videoLikeHandler lib world g r = some w ∨
      videoMyHandler lib world g r = some w ∨
      videoHistoryHandler lib world g r = some w ∨
      musicHandler lib world g r = some w ∨
      postRecommendedHandler lib world g r = some w ∨
      historyOtherHandler lib world g r = some w) :
    ∃ v, w.body = Body.json v ∧ isListEnvelope v = true := by
  rcases hw with h | h | h | h | h | h | h | h | h
  · simp only [recommendedHandler, hm, if_false] at h
    split at h
    · simp only [Option.some.injEq] at h
      subst h
      simp [httpError, setHeader] at hs
    · split at h
      · simp at h
      · simp only [Option.some.injEq] at h
        subst h
        exact ⟨_, rfl, by simp [isListEnvelope, mapGet, responseData]⟩
  · simp only [videoLongRecommendedHandler, hm, if_false] at h
    split at h
    · simp at h
    · simp only [Option.some.injEq] at h
      subst h
      exact ⟨_, rfl, by simp [isListEnvelope, mapGet, responseData, recsValue]⟩
  · simp only [videoPrivateHandler, hm, if_false] at h
    split at h
    · simp at h
    · simp only [Option.some.injEq] at h
      subst h
      exact ⟨_, rfl, by simp [isListEnvelope, mapGet, responseData, recsValue]⟩
  · simp only [videoLikeHandler, hm, if_false] at h
    split at h
    · simp at h
    · simp only [Option.some.injEq] at h
      subst h
      exact ⟨_, rfl, by simp [isListEnvelope, mapGet, responseData, recsValue]⟩
  · simp only [videoMyHandler, hm, if_false] at h
    split at h
    · simp at h
    · split at h
      · simp at h
      · simp only [Option.some.injEq] at h
        subst h
        exact ⟨_, rfl, by simp [isListEnvelope, mapGet, recsValue]⟩
  · simp only [videoHistoryHandler, hm, if_false] at h
    split at h
    · simp at h
    · simp only [Option.some.injEq] at h
      subst h
      exact ⟨_, rfl, by simp [isListEnvelope, mapGet, recsValue]⟩
  · simp only [musicHandler, hm, if_false, Option.some.injEq] at h
    subst h
    exact ⟨_, rfl, by simp [isListEnvelope, mapGet, responseData, recsValue]⟩
  · simp only [postRecommendedHandler, hm, if_false] at h
    split at h
    · simp at h
    · simp only [Option.some.injEq] at h
      subst h
      exact ⟨_, rfl, by simp [isListEnvelope, mapGet, recsValue]⟩
  · simp only [historyOtherHandler, hm, if_false, Option.some.injEq] at h
    subst h
    exact ⟨_, rfl, by simp [isListEnvelope, mapGet]⟩

/-- Whatever `shopRecommendedHandler` answers to a request that is not OPTIONS is not
that envelope. -/
theorem shopRecommended_not_envelope (lib : Lib) (world : World) (g : Globals)
    (r : Request) (w : Response) (hm : r.method ≠ "OPTIONS")
    (hw : shopRecommendedHandler lib world g r = some w) :
    ∃ v, w.body = Body.json v ∧ isListEnvelope v = false := by
  simp only [shopRecommendedHandler, hm, if_false] at hw
  split at hw
  · simp at hw
  · simp only [Option.some.injEq] at hw
    subst hw
    exact ⟨_, rfl, by simp [isListEnvelope, mapGet]⟩


/-! ## Further facts about the embedded functions -/

/-- On a non-nil record `loadVideo` does not panic. -/
theorem loadVideo_returns (lib : Lib) (jsonUsers : Obj) (m : Obj) :
    ∃ v1, loadVideo lib jsonUsers (some m) = some v1 := by
  unfold loadVideo
  simp only [recSet]
  split
  · split <;> simp [recSet]
  · simp

/-- The loop of `loadJsonData` does not panic when no decoded record is a nil map. -/
theorem loadVideos_returns (lib : Lib) (jsonUsers : Obj) :
    ∀ (videos acc : List Record), (∀ v ∈ videos, v ≠ none) →
      ∃ out, loadVideos lib jsonUsers videos acc = some out := by
  intro videos
  induction videos with
  | nil => intro acc _; exact ⟨acc, rfl⟩
  | cons v rest ih =>
    intro acc hall
    cases v with
    | none => exact absurd rfl (hall none (List.mem_cons_self _ _))
    | some m =>
      obtain ⟨v1, hv1⟩ := loadVideo_returns lib jsonUsers m
      obtain ⟨out, hout⟩ := ih (acc ++ [v1]) (fun x hx => hall x (List.mem_cons_of_mem _ hx))
      exact ⟨out, by simp only [loadVideos, hv1, hout]⟩

/-- `loadJsonData` returns whenever the decoded video file holds no `null` element. -/
theorem loadJsonData_returns (lib : Lib) (w : World) (g : Globals)
    (hall : ∀ videosBytes, readVideosBytes w = some videosBytes →
      ∀ v ∈ (lib.jsonUnmarshalRecords videosBytes).1, v ≠ none) :
    ∃ g1, loadJsonData lib w g = some g1 := by
  unfold loadJsonData loadVideosBlock
  cases hr : readVideosBytes w with
  | none => exact ⟨_, rfl⟩
  | some videosBytes =>
    dsimp only
    by_cases hok : (lib.jsonUnmarshalRecords videosBytes).2 = true
    · obtain ⟨out, hout⟩ := loadVideos_returns lib
        (loadGoods lib w (loadPosts lib w (loadUsers lib w g))).jsonUsers
        (lib.jsonUnmarshalRecords videosBytes).1
        (loadGoods lib w (loadPosts lib w (loadUsers lib w g))).jsonVideos
        (hall videosBytes hr)
      simp only [hok, if_true, hout]
      exact ⟨_, rfl⟩
    · simp only [hok]
      exact ⟨_, rfl⟩

/-- A nil map among the decoded video records makes `loadJsonData` panic. -/
theorem loadVideos_nil_map (lib : Lib) (jsonUsers : Obj) (rest acc : List Record) :
    loadVideos lib jsonUsers (none :: rest) acc = none := by
  simp [loadVideos, loadVideo, recSet]

/-- Events on which the callback returns nil are passed over by `WalkDir`. -/
theorem walkDir_append {σ : Type} (fn : σ → WalkEvent → σ × Option Err)
    (tail : List WalkEvent) :
    ∀ (pre : List WalkEvent) (st : σ), (∀ ev ∈ pre, ∀ s, (fn s ev).2 = none) →
      walkDir fn (pre ++ tail) st = walkDir fn tail (walkDir fn pre st).1 := by
  intro pre
  induction pre with
  | nil => intro st _; rfl
  | cons ev rest ih =>
    intro st hall
    have h1 := hall ev (List.mem_cons_self _ _) st
    have h2 := ih (fn st ev).1 (fun e he => hall e (List.mem_cons_of_mem _ he))
    show walkDir fn (ev :: (rest ++ tail)) st = walkDir fn tail (walkDir fn (ev :: rest) st).1
    cases hfn : fn st ev with
    | mk a b =>
      rw [hfn] at h1 h2
      simp only at h1 h2
      subst h1
      simp only [walkDir, hfn]
      exact h2

/-- A traversal error that is not a not-exist error makes `scanMediaVideos` fail: it
returns that error and no records, whatever was collected before. -/
theorem scanMediaVideos_other_error (lib : Lib) (w : World) (mediaDir path : String)
    (pre rest : List WalkEvent) (err : Err)
    (hev : w.walkEvents mediaDir = pre ++ WalkEvent.failure path err :: rest)
    (hpre : ∀ ev ∈ pre, ∀ vs, (scanCallback lib mediaDir vs ev).2 = none)
    (herr : err.notExist = false) :
    scanMediaVideos lib w mediaDir = ([], some err) := by
  unfold scanMediaVideos
  rw [hev, walkDir_append (scanCallback lib mediaDir) _ pre [] hpre]
  simp [walkDir, scanCallback, herr]

/-- A not-exist error for a path other than the media root is returned by the
callback but turned into success by `scanMediaVideos`, which keeps the records
collected so far. -/
theorem scanMediaVideos_not_exist_below_root (lib : Lib) (w : World)
    (mediaDir path : String) (pre rest : List WalkEvent) (err : Err)
    (hev : w.walkEvents mediaDir = pre ++ WalkEvent.failure path err :: rest)
    (hpre : ∀ ev ∈ pre, ∀ vs, (scanCallback lib mediaDir vs ev).2 = none)
    (herr : err.notExist = true) (hpath : path ≠ mediaDir) :
    (scanCallback lib mediaDir [] (WalkEvent.failure path err)).2 = some err ∧
    scanMediaVideos lib w mediaDir =
      ((walkDir (scanCallback lib mediaDir) pre []).1, none) := by
  refine ⟨by simp [scanCallback, herr, hpath], ?_⟩
  unfold scanMediaVideos
  rw [hev, walkDir_append (scanCallback lib mediaDir) _ pre [] hpre]
  simp [walkDir, scanCallback, herr, hpath]

/-- Every entry of the user index is the record of a user of the list, filed under
that user's string `uid`. -/
theorem indexUsers_entries (users : List Record) :
    ∀ (acc : Obj) (uid : String) (val : Value),
      mapGet (users.foldl indexUser acc) uid = some val →
      mapGet acc uid = some val ∨
        ∃ u ∈ users, val = recValue u ∧ recGet u "uid" = some (Value.str uid) := by
  induction users with
  | nil => intro acc uid val h; exact Or.inl h
  | cons u rest ih =>
    intro acc uid val h
    rw [List.foldl_cons] at h
    rcases ih _ uid val h with h1 | ⟨u1, hu1, hval, huid⟩
    · unfold indexUser at h1
      split at h1
      · next uid1 hget =>
        by_cases he : uid = uid1
        · subst he
          rw [mapGet_mapSet_self, Option.some.injEq] at h1
          exact Or.inr ⟨u, List.mem_cons_self _ _, h1.symm, hget⟩
        · rw [mapGet_mapSet_ne _ _ _ _ he] at h1
          exact Or.inl h1
      · exact Or.inl h1
    · exact Or.inr ⟨u1, List.mem_cons_of_mem _ hu1, hval, huid⟩

/-- When the user file is read and decoded, the user index that `loadJsonData` leaves
is the index of the decoded users. -/
theorem loadJsonData_user_index (lib : Lib) (w : World) (g g1 : Globals)
    (usersBytes : Bytes)
    (hload : loadJsonData lib w g = some g1)
    (hread : w.fsReadFile "data/users.json" = some usersBytes)
    (hok : (lib.jsonUnmarshalRecords usersBytes).2 = true) :
    g1.jsonUsers = indexUsers (lib.jsonUnmarshalRecords usersBytes).1 := by
  have hu : (loadGoods lib w (loadPosts lib w (loadUsers lib w g))).jsonUsers =
      indexUsers (lib.jsonUnmarshalRecords usersBytes).1 := by
    have h1 : (loadUsers lib w g).jsonUsers =
        indexUsers (lib.jsonUnmarshalRecords usersBytes).1 := by
      simp [loadUsers, hread, hok]
    rw [← h1]
    unfold loadGoods loadPosts
    cases w.fsReadFile "data/goods.json" <;> cases w.fsReadFile "data/posts.json" <;> rfl
  unfold loadJsonData loadVideosBlock at hload
  rw [← hu]
  split at hload
  · simp only [Option.some.injEq] at hload
    rw [← hload]
  · dsimp only at hload
    split at hload
    · split at hload
      · simp at hload
      · simp only [Option.some.injEq] at hload
        rw [← hload]
    · simp only [Option.some.injEq] at hload
      rw [← hload]

/-! ## The two clamping styles -/

/-- The slice that the `start`/`pageSize` handlers evaluate, for arguments without sign
or overflow, is the dropped-and-taken page. -/
theorem recommended_slice_eq {α : Type} (xs : List α) (start pageSize : Int)
    (hs : 0 ≤ start) (hp : 0 ≤ pageSize) (ho : start + pageSize < 2 ^ 63) :
    slice xs (recommendedBounds xs.length start pageSize).1
        (recommendedBounds xs.length start pageSize).2 =
      some (dropTakePage xs start pageSize) := by
  obtain ⟨hb, _⟩ := recommendedBounds_inBounds xs start pageSize hs hp ho
  rw [slice_eq_some _ _ _ hb]
  have hw : wrap (start + pageSize) = start + pageSize := wrap_eq_self _ (by omega) ho
  unfold recommendedBounds dropTakePage
  simp only [hw]
  congr 1
  by_cases h1 : start > (xs.length : Int)
  · have h2 : start + pageSize > (xs.length : Int) := by omega
    simp only [h1, h2, if_true]
    rw [List.drop_eq_nil_of_le (by omega), List.drop_eq_nil_of_le (by omega)]
    simp
  · have h3 : (if start > (xs.length : Int) then (xs.length : Int) else start) = start := by
      simp [h1]
    rw [h3, List.take_eq_take, List.length_drop]
    split_ifs <;> omega

/-- The slice that the `pageNo` handlers evaluate, for arguments without sign or
overflow, is the dropped-and-taken page. -/
theorem offsetSlice_eq {α : Type} (xs : List α) (offset pageSize : Int)
    (hs : 0 ≤ offset) (hp : 0 ≤ pageSize) (ho : offset + pageSize < 2 ^ 63) :
    offsetSlice xs offset pageSize = some (dropTakePage xs offset pageSize) ∧
    (offset < (xs.length : Int) →
      inBounds xs offset
        (if wrap (offset + pageSize) > (xs.length : Int) then (xs.length : Int)
          else wrap (offset + pageSize))) := by
  have hw : wrap (offset + pageSize) = offset + pageSize := wrap_eq_self _ (by omega) ho
  have hb : offset < (xs.length : Int) → inBounds xs offset
      (if offset + pageSize > (xs.length : Int) then (xs.length : Int)
        else offset + pageSize) := by
    intro _
    unfold inBounds
    split_ifs <;> omega
  refine ⟨?_, by simpa only [hw] using hb⟩
  unfold offsetSlice dropTakePage
  simp only [hw]
  by_cases h : offset ≥ (xs.length : Int)
  · rw [if_pos h, List.drop_eq_nil_of_le (by omega)]
    simp
  · rw [if_neg h, slice_eq_some _ _ _ (hb (by omega))]
    congr 1
    rw [List.take_eq_take, List.length_drop]
    split_ifs <;> omega

/-- C12: for every collection and all non-negative `start` and `pageSize` whose sum
does not overflow, the slice of `recommendedHandler` / `videoLongRecommendedHandler`
(clamp `end`, then clamp `start`) and the slice of `postRecommendedHandler` /
`shopRecommendedHandler` with `offset = start` (empty when `offset >= total`, else
clamp `end`) both equal the collection with the first `start` elements dropped and
then at most `pageSize` taken, and the slice expressions they evaluate are in range. -/
theorem clamping_styles_agree {α : Type} (xs : List α) (start pageSize : Int)
    (hs : 0 ≤ start) (hp : 0 ≤ pageSize) (ho : start + pageSize < 2 ^ 63) :
    recommendedPage xs start pageSize =
      some (dropTakePage xs start pageSize, (xs.length : Int)) ∧
    videoLongRecommendedPage xs start pageSize =
      some (dropTakePage xs start pageSize, (xs.length : Int)) ∧
    offsetSlice xs start pageSize = some (dropTakePage xs start pageSize) ∧
    (∀ pageNo : Int, wrap (pageNo * pageSize) = start →
      postRecommendedPage xs pageNo pageSize =
        some (dropTakePage xs start pageSize, (xs.length : Int)) ∧
      shopRecommendedPage xs pageNo pageSize =
        some (dropTakePage xs start pageSize, (xs.length : Int))) ∧
    inBounds xs (recommendedBounds xs.length start pageSize).1
      (recommendedBounds xs.length start pageSize).2 ∧
    (start < (xs.length : Int) →
      inBounds xs start
        (if wrap (start + pageSize) > (xs.length : Int) then (xs.length : Int)
          else wrap (start + pageSize))) := by
  have hrec := recommended_slice_eq xs start pageSize hs hp ho
  obtain ⟨hoff, hoffb⟩ := offsetSlice_eq xs start pageSize hs hp ho
  have hpage : recommendedPage xs start pageSize =
      some (dropTakePage xs start pageSize, (xs.length : Int)) := by
    unfold recommendedPage
    simp only [hrec, Option.map_some']
  refine ⟨hpage, ?_, hoff, ?_, (recommendedBounds_inBounds xs start pageSize hs hp ho).1,
    hoffb⟩
  · unfold videoLongRecommendedPage
    by_cases h : (xs.length : Int) > 0
    · simp only [h, if_true, hrec, Option.map_some']
    · simp only [h, if_false]
      have hnil : xs = [] := List.length_eq_zero.mp (by omega)
      subst hnil
      simp [dropTakePage]
  · intro pageNo hno
    unfold postRecommendedPage shopRecommendedPage
    simp only [hno, hoff, Option.map_some', and_self]

/-- Witness of C12: five records, `start = 3`, `pageSize = 4`: both styles give the last
two records. -/
theorem clamping_styles_agree_witness :
    recommendedPage [1, 2, 3, 4, 5] 3 4 = some ([4, 5], 5) ∧
      offsetSlice [1, 2, 3, 4, 5] 3 4 = some [4, 5] :=
  have h := clamping_styles_agree [1, 2, 3, 4, 5] 3 4 (by decide) (by decide) (by decide)
  ⟨h.1, h.2.2.1⟩

/-! ## Description of a media file -/

/-- The scan of `filepath.Ext` passes over runes that are neither dot nor separator. -/
theorem extScan_append (l rest acc : List Char)
    (hl : ∀ c ∈ l, c ≠ '.' ∧ c ≠ pathSeparator) :
    extScan (l ++ rest) acc = extScan rest (l.reverse ++ acc) := by
  induction l generalizing acc with
  | nil => rfl
  | cons c cs ih =>
    obtain ⟨h1, h2⟩ := hl c (List.mem_cons_self _ _)
    have hcs : ∀ d ∈ cs, d ≠ '.' ∧ d ≠ pathSeparator :=
      fun d hd => hl d (List.mem_cons_of_mem _ hd)
    show extScan (c :: (cs ++ rest)) acc = _
    rw [extScan, if_neg h2, if_neg h1, ih (c :: acc) hcs]
    simp

/-- Go `filepath.Ext` of a name whose last dot is followed by runes that are neither
dot nor separator is the suffix starting at that dot. -/
theorem filepathExt_last_dot (pre tail : List Char)
    (ht : ∀ c ∈ tail, c ≠ '.' ∧ c ≠ pathSeparator) :
    filepathExt ⟨pre ++ '.' :: tail⟩ = ⟨'.' :: tail⟩ := by
  unfold filepathExt
  congr 1
  have hrev : (pre ++ '.' :: tail).reverse = tail.reverse ++ '.' :: pre.reverse := by simp
  show extScan (pre ++ '.' :: tail).reverse [] = _
  rw [hrev, extScan_append _ _ _ (fun c hc => ht c (List.mem_reverse.mp hc))]
  have hdot : ¬ ('.' = pathSeparator) := by decide
  rw [extScan, if_neg hdot, if_pos rfl]
  simp

/-- Go `strings.TrimSuffix` removes a suffix that is there. -/
theorem trimSuffix_append (pre suf : List Char) :
    trimSuffix ⟨pre ++ suf⟩ ⟨suf⟩ = ⟨pre⟩ := by
  unfold trimSuffix hasSuffix
  have h : suf <:+ pre ++ suf := List.suffix_append _ _
  simp only [h, decide_True, if_true]
  congr 1
  simp

/-- A name whose lower-cased form ends in a dot followed by `letters` ends in a dot
followed by runes that lower-case to `letters`. -/
theorem lower_suffix_split (f : Char → Char) (hdot : ∀ c : Char, f c = '.' ↔ c = '.')
    (hsep : f pathSeparator = pathSeparator) (name letters : List Char)
    (hl : ∀ c ∈ letters, c ≠ '.' ∧ c ≠ pathSeparator)
    (hsuf : '.' :: letters <:+ name.map f) :
    ∃ pre tail, name = pre ++ '.' :: tail ∧ tail.map f = letters ∧
      ∀ c ∈ tail, c ≠ '.' ∧ c ≠ pathSeparator := by
  obtain ⟨t, ht⟩ := hsuf
  obtain ⟨l1, l2, hname, _, h2⟩ := List.map_eq_append_iff.mp ht.symm
  obtain ⟨c, tail, hl2, hc, htail⟩ := List.map_eq_cons_iff.mp h2
  have hc1 : c = '.' := (hdot c).mp hc
  refine ⟨l1, tail, by rw [hname, hl2, hc1], htail, ?_⟩
  intro d hd
  have hfd : f d ∈ letters := by
    rw [← htail]
    exact List.mem_map_of_mem f hd
  obtain ⟨h3, h4⟩ := hl (f d) hfd
  refine ⟨fun hd1 => h3 ((hdot d).mpr hd1), fun hd2 => h4 ?_⟩
  rw [hd2, hsep]

/-- The description of a name that lower-cases to something ending in a dot followed
by `letters`. -/
theorem description_of_suffix (toLower : String → String) (f : Char → Char)
    (hlow : lowersBy toLower f) (fileName : String) (letters : List Char)
    (hl : ∀ c ∈ letters, c ≠ '.' ∧ c ≠ pathSeparator)
    (hsuf : hasSuffix (toLower fileName) ⟨'.' :: letters⟩ = true) :
    trimSuffix fileName (filepathExt fileName) ++ filepathExt fileName = fileName ∧
    toLower (filepathExt fileName) = ⟨'.' :: letters⟩ ∧
    ∃ pre tail, fileName = ⟨pre ++ '.' :: tail⟩ ∧
      trimSuffix fileName (filepathExt fileName) = ⟨pre⟩ ∧
      filepathExt fileName = ⟨'.' :: tail⟩ := by
  obtain ⟨hmap, hdot, hsep⟩ := hlow
  unfold hasSuffix at hsuf
  rw [hmap fileName] at hsuf
  have hsuf2 : '.' :: letters <:+ fileName.data.map f := of_decide_eq_true hsuf
  obtain ⟨pre, tail, hname, htail, hclean⟩ :=
    lower_suffix_split f hdot hsep fileName.data letters hl hsuf2
  have hfile : fileName = ⟨pre ++ '.' :: tail⟩ := String.ext hname
  have hext : filepathExt fileName = ⟨'.' :: tail⟩ := by
    rw [hfile]
    exact filepathExt_last_dot pre tail hclean
  have hdesc : trimSuffix fileName (filepathExt fileName) = ⟨pre⟩ := by
    rw [hext, hfile]
    exact trimSuffix_append pre ('.' :: tail)
  refine ⟨?_, ?_, pre, tail, hfile, hdesc, hext⟩
  · rw [hdesc, hext, hfile]
    rfl
  · rw [hext, hmap]
    congr 1
    show f '.' :: tail.map f = '.' :: letters
    rw [htail, (hdot '.').mpr rfl]

/-- C14: for every file name that passes the extension filter of `scanMediaVideos`
(its lower-cased form ends in `.mp4`, `.webm` or `.ogg`), the description is the file
name with exactly its final extension stripped: `desc ++ ext = fileName`, where `ext`
is `filepath.Ext(fileName)`, starts at the last dot of the name and lower-cases to one
of `.mp4`, `.webm`, `.ogg`; it is the `desc` field of the record the callback appends. -/
theorem description_strips_extension (lib : Lib) (f : Char → Char)
    (hlow : lowersBy lib.toLower f) (fileName : String)
    (hpass : mediaExtension lib fileName = true) :
    trimSuffix fileName (filepathExt fileName) ++ filepathExt fileName = fileName ∧
    (lib.toLower (filepathExt fileName) = ".mp4" ∨
      lib.toLower (filepathExt fileName) = ".webm" ∨
      lib.toLower (filepathExt fileName) = ".ogg") ∧
    (∃ pre tail, fileName = ⟨pre ++ '.' :: tail⟩ ∧
      (∀ c ∈ tail, c ≠ '.') ∧
      trimSuffix fileName (filepathExt fileName) = ⟨pre⟩ ∧
      filepathExt fileName = ⟨'.' :: tail⟩) ∧
    ∀ (mediaDir path relPath : String) (videos : List Obj),
      lib.filepathRel mediaDir path = some relPath →
      ∃ r, scanCallback lib mediaDir videos (WalkEvent.entry path fileName false) =
          (videos ++ [r], none) ∧
        mapGet r "desc" = some (Value.str (trimSuffix fileName (filepathExt fileName))) := by
  have hcases : hasSuffix (lib.toLower fileName) ".mp4" = true ∨
      hasSuffix (lib.toLower fileName) ".webm" = true ∨
      hasSuffix (lib.toLower fileName) ".ogg" = true := by
    unfold mediaExtension at hpass
    simp only [Bool.not_and, Bool.not_not, Bool.or_eq_true] at hpass
    tauto
  have hrec : ∀ (mediaDir path relPath : String) (videos : List Obj),
      lib.filepathRel mediaDir path = some relPath →
      ∃ r, scanCallback lib mediaDir videos (WalkEvent.entry path fileName false) =
          (videos ++ [r], none) ∧
        mapGet r "desc" =
          some (Value.str (trimSuffix fileName (filepathExt fileName))) := by
    intro mediaDir path relPath videos hrel
    refine ⟨mediaRecord (lib.md5Hex relPath) (trimSuffix fileName (filepathExt fileName))
      (mediaUrl lib relPath) "", ?_, ?_⟩
    · simp [scanCallback, hpass, hrel]
    · simp [mediaRecord, mapGet]
  have key : ∀ letters : List Char, (∀ c ∈ letters, c ≠ '.' ∧ c ≠ pathSeparator) →
      hasSuffix (lib.toLower fileName) ⟨'.' :: letters⟩ = true →
      trimSuffix fileName (filepathExt fileName) ++ filepathExt fileName = fileName ∧
      lib.toLower (filepathExt fileName) = ⟨'.' :: letters⟩ ∧
      ∃ pre tail, fileName = ⟨pre ++ '.' :: tail⟩ ∧ (∀ c ∈ tail, c ≠ '.') ∧
        trimSuffix fileName (filepathExt fileName) = ⟨pre⟩ ∧
        filepathExt fileName = ⟨'.' :: tail⟩ := by
    intro letters hl hs
    obtain ⟨h1, h2, pre, tail, h3, h4, h5⟩ :=
      description_of_suffix lib.toLower f hlow fileName letters hl hs
    refine ⟨h1, h2, pre, tail, h3, ?_, h4, h5⟩
    intro c hc hcdot
    have hmem : f c ∈ letters := by
      have h6 : lib.toLower (filepathExt fileName) = ⟨(filepathExt fileName).data.map f⟩ :=
        hlow.1 _
      rw [h6, h5] at h2
      have h7 : ('.' :: tail).map f = '.' :: letters := congrArg String.data h2
      simp only [List.map_cons, List.cons.injEq] at h7
      rw [← h7.2]
      exact List.mem_map_of_mem f hc
    exact (hl (f c) hmem).1 ((hlow.2.1 c).mpr hcdot)
  rcases hcases with h | h | h
  · obtain ⟨h1, h2, h3⟩ := key ['m', 'p', '4'] (by decide) h
    exact ⟨h1, Or.inl h2, h3, hrec⟩
  · obtain ⟨h1, h2, h3⟩ := key ['w', 'e', 'b', 'm'] (by decide) h
    exact ⟨h1, Or.inr (Or.inl h2), h3, hrec⟩
  · obtain ⟨h1, h2, h3⟩ := key ['o', 'g', 'g'] (by decide) h
    exact ⟨h1, Or.inr (Or.inr h2), h3, hrec⟩
/-- ASCII lower-casing is a rune-by-rune lower-casing that keeps the dot and the
separator apart from the letters. -/
theorem asciiLower_lowersBy : lowersBy asciiLower lowerChar := by
  refine ⟨fun s => rfl, ?_, by decide⟩
  intro c
  have hup : ∀ n : Nat, n < 91 → 65 ≤ n → Char.ofNat (n + 32) ≠ '.' ∧ Char.ofNat n ≠ '.' := by
    decide
  unfold lowerChar
  by_cases h : 65 ≤ c.toNat ∧ c.toNat ≤ 90
  · rw [if_pos h]
    obtain ⟨h1, h2⟩ := hup c.toNat (by omega) h.1
    rw [Char.ofNat_toNat] at h2
    exact ⟨fun h3 => absurd h3 h1, fun h3 => absurd h3 h2⟩
  · rw [if_neg h]

/-- Witness of C14: `a.b.MP4` passes the filter and is described as `a.b`; the name
`.mp4` passes the filter and has the empty description. -/
theorem description_strips_extension_witness :
    mediaExtension evalLib "a.b.MP4" = true ∧
    trimSuffix "a.b.MP4" (filepathExt "a.b.MP4") ++ filepathExt "a.b.MP4" = "a.b.MP4" ∧
    trimSuffix "a.b.MP4" (filepathExt "a.b.MP4") = "a.b" ∧
    filepathExt "a.b.MP4" = ".MP4" ∧
    mediaExtension evalLib ".mp4" = true ∧
    trimSuffix ".mp4" (filepathExt ".mp4") = "" :=
  ⟨by decide,
    (description_strips_extension evalLib lowerChar asciiLower_lowersBy "a.b.MP4"
      (by decide)).1,
    by decide, by decide, by decide, by decide⟩

/-! ## Playback URL -/


/-- A piece without the separator is one piece. -/
theorem splitChars_single (sep : Char) (p : List Char) (h : sep ∉ p) :
    splitChars sep p = [p] := by
  induction p with
  | nil => rfl
  | cons c cs ih =>
    have hc : ¬ c = sep := fun e => h (e ▸ List.mem_cons_self _ _)
    have hcs : sep ∉ cs := fun e => h (List.mem_cons_of_mem _ e)
    rw [splitChars, if_neg hc, ih hcs]

/-- Splitting after a piece without the separator. -/
theorem splitChars_append (sep : Char) (p rest : List Char) (h : sep ∉ p) :
    splitChars sep (p ++ sep :: rest) = p :: splitChars sep rest := by
  induction p with
  | nil =>
    show splitChars sep (sep :: rest) = _
    rw [splitChars, if_pos rfl]
  | cons c cs ih =>
    have hc : ¬ c = sep := fun e => h (e ▸ List.mem_cons_self _ _)
    have hcs : sep ∉ cs := fun e => h (List.mem_cons_of_mem _ e)
    show splitChars sep (c :: (cs ++ sep :: rest)) = _
    rw [splitChars, if_neg hc, ih hcs]

/-- Splitting a joined list of pieces that do not contain the separator gives back the
pieces. -/
theorem split_join (parts : List String) (hne : parts ≠ [])
    (hclean : ∀ p ∈ parts, '/' ∉ p.data) :
    stringsSplit (stringsJoin parts "/") '/' = parts := by
  induction parts with
  | nil => exact absurd rfl hne
  | cons p rest ih =>
    cases rest with
    | nil =>
      unfold stringsSplit
      rw [stringsJoin, splitChars_single _ _ (hclean p (List.mem_cons_self _ _))]
      rfl
    | cons q rest2 =>
      have ih2 := ih (List.cons_ne_nil _ _) (fun x hx => hclean x (List.mem_cons_of_mem _ hx))
      unfold stringsSplit at ih2 ⊢
      rw [stringsJoin]
      have hdata : (p ++ "/" ++ stringsJoin (q :: rest2) "/").data =
          p.data ++ '/' :: (stringsJoin (q :: rest2) "/").data := by
        simp [String.data_append]
      rw [hdata, splitChars_append _ _ _ (hclean p (List.mem_cons_self _ _)),
        List.map_cons, ih2]

set_option maxRecDepth 100000 in
/-- What the proofs use of the escape of one byte: it never yields a slash, an escaped
byte is written with two digits that `unhex` reads back, and a byte left alone is an
ASCII rune other than the percent sign. -/
theorem escapeByte_facts :
    ∀ b : Nat, b < 256 →
      '/' ∉ escapeByte b ∧
      (shouldEscape b = true →
        unhex (hexUpper (b / 16)) = some (b / 16) ∧
        unhex (hexUpper (b % 16)) = some (b % 16)) ∧
      (shouldEscape b = false →
        Char.ofNat b ≠ '%' ∧
        (String.utf8EncodeChar (Char.ofNat b)).map UInt8.toNat = [b]) := by
  decide

/-- Decoding at an escape. -/
theorem unescapeChars_percent (a b : Char) (rest : List Char) (x y : Nat)
    (bytes : List Nat) (ha : unhex a = some x) (hb : unhex b = some y)
    (hr : unescapeChars rest = some bytes) :
    unescapeChars ('%' :: a :: b :: rest) = some ((16 * x + y) :: bytes) := by
  rw [unescapeChars]
  simp only [if_true, ha, hb, hr]

/-- Decoding at a rune that is not the percent sign. -/
theorem unescapeChars_plain (c : Char) (rest : List Char) (bytes : List Nat)
    (hc : c ≠ '%') (hr : unescapeChars rest = some bytes) :
    unescapeChars (c :: rest) =
      some ((String.utf8EncodeChar c).map UInt8.toNat ++ bytes) := by
  rw [unescapeChars.eq_def]
  simp only [hc, if_false, hr, Option.map_some']

/-- Percent-decoding undoes the escape of a list of bytes. -/
theorem unescape_escape (bytes : List Nat) (hb : ∀ b ∈ bytes, b < 256) :
    unescapeChars (bytes.flatMap escapeByte) = some bytes := by
  induction bytes with
  | nil => rfl
  | cons b rest ih =>
    have ih2 := ih (fun x hx => hb x (List.mem_cons_of_mem _ hx))
    obtain ⟨_, hesc, hkeep⟩ := escapeByte_facts b (hb b (List.mem_cons_self _ _))
    rw [List.flatMap_cons]
    unfold escapeByte
    by_cases h : shouldEscape b = true
    · obtain ⟨h1, h2⟩ := hesc h
      rw [if_pos h]
      show unescapeChars ('%' :: hexUpper (b / 16) :: hexUpper (b % 16) ::
        rest.flatMap escapeByte) = _
      rw [unescapeChars_percent _ _ _ _ _ _ h1 h2 ih2]
      congr 2
      omega
    · have h3 : shouldEscape b = false := by simpa using h
      obtain ⟨h1, h2⟩ := hkeep h3
      rw [if_neg h]
      show unescapeChars (Char.ofNat b :: rest.flatMap escapeByte) = _
      rw [unescapeChars_plain _ _ _ h1 ih2, h2]
      rfl

/-- The bytes of a string are bytes. -/
theorem utf8Bytes_lt (s : String) : ∀ b ∈ utf8Bytes s, b < 256 := by
  intro b hb
  unfold utf8Bytes at hb
  obtain ⟨c, _, hc⟩ := List.mem_flatMap.mp hb
  obtain ⟨u, _, hu⟩ := List.mem_map.mp hc
  rw [← hu]
  exact UInt8.toNat_lt_size u

/-- Go `url.PathUnescape` undoes `url.PathEscape`. -/
theorem urlPathUnescape_escape (s : String) :
    urlPathUnescape (urlPathEscape s) = some (utf8Bytes s) :=
  unescape_escape (utf8Bytes s) (utf8Bytes_lt s)

/-- No slash in the output of `url.PathEscape`. -/
theorem urlPathEscape_no_slash (s : String) : '/' ∉ (urlPathEscape s).data := by
  intro h
  have h2 : '/' ∈ (utf8Bytes s).flatMap escapeByte := h
  obtain ⟨b, hb, hmem⟩ := List.mem_flatMap.mp h2
  exact (escapeByte_facts b (utf8Bytes_lt s b hb)).1 hmem

/-- Go `strings.Split` never returns the empty list. -/
theorem splitChars_ne_nil (sep : Char) (s : List Char) : splitChars sep s ≠ [] := by
  cases s with
  | nil => simp [splitChars]
  | cons c cs =>
    rw [splitChars]
    split_ifs
    · simp
    · split <;> simp

/-- Go `strings.TrimPrefix` removes a prefix that is there. -/
theorem trimLeading_append (pre rest : String) : trimLeading (pre ++ rest) pre = rest := by
  unfold trimLeading startsWith
  have h : pre.data <+: (pre ++ rest).data := by
    rw [String.data_append]
    exact List.prefix_append _ _
  simp only [h, decide_True, if_true]
  apply String.ext
  simp [String.data_append]

/-- C13: for every relative path with segments `s1..sn` (split on the path separator),
the playback URL of `scanMediaVideos` is `/media/` followed by `PathEscape(s1)`, ...,
`PathEscape(sn)` joined by `/`; no escaped segment contains a slash, so splitting the
part after `/media/` on `/` gives exactly the `n` escaped segments, each a function of
its own segment, and percent-decoding piece `i` gives back the bytes of `si`; the URL
is the one stored at `video.play_addr.url_list` of the record. -/
theorem media_url_segments (lib : Lib) (hesc : lib.pathEscape = urlPathEscape)
    (relPath : String) :
    mediaUrl lib relPath =
      "/media/" ++ stringsJoin ((stringsSplit relPath pathSeparator).map urlPathEscape) "/" ∧
    (∀ s ∈ stringsSplit relPath pathSeparator, '/' ∉ (urlPathEscape s).data) ∧
    stringsSplit (trimLeading (mediaUrl lib relPath) "/media/") '/' =
      (stringsSplit relPath pathSeparator).map urlPathEscape ∧
    (stringsSplit (trimLeading (mediaUrl lib relPath) "/media/") '/').length =
      (stringsSplit relPath pathSeparator).length ∧
    (stringsSplit (trimLeading (mediaUrl lib relPath) "/media/") '/').map urlPathUnescape =
      (stringsSplit relPath pathSeparator).map (fun s => some (utf8Bytes s)) ∧
    ∀ (mediaDir path fileName : String) (videos : List Obj),
      mediaExtension lib fileName = true →
      lib.filepathRel mediaDir path = some relPath →
      ∃ r, scanCallback lib mediaDir videos (WalkEvent.entry path fileName false) =
          (videos ++ [r], none) ∧
        playAddr r "url_list" = some (strsValue [mediaUrl lib relPath]) := by
  have hurl : mediaUrl lib relPath =
      "/media/" ++ stringsJoin ((stringsSplit relPath pathSeparator).map urlPathEscape) "/" := by
    unfold mediaUrl
    rw [hesc]
  have hne : (stringsSplit relPath pathSeparator).map urlPathEscape ≠ [] := by
    unfold stringsSplit
    simp only [ne_eq, List.map_eq_nil_iff]
    exact splitChars_ne_nil _ _
  have hclean : ∀ p ∈ (stringsSplit relPath pathSeparator).map urlPathEscape,
      '/' ∉ p.data := by
    intro p hp
    obtain ⟨s, _, hs⟩ := List.mem_map.mp hp
    rw [← hs]
    exact urlPathEscape_no_slash s
  have hsplit : stringsSplit (trimLeading (mediaUrl lib relPath) "/media/") '/' =
      (stringsSplit relPath pathSeparator).map urlPathEscape := by
    rw [hurl, trimLeading_append, split_join _ hne hclean]
  refine ⟨hurl, fun s _ => urlPathEscape_no_slash s, hsplit, ?_, ?_, ?_⟩
  · rw [hsplit, List.length_map]
  · rw [hsplit, List.map_map]
    apply List.map_congr_left
    intro s _
    exact urlPathUnescape_escape s
  · intro mediaDir path fileName videos hpass hrel
    refine ⟨mediaRecord (lib.md5Hex relPath) (trimSuffix fileName (filepathExt fileName))
      (mediaUrl lib relPath) "", ?_, ?_⟩
    · simp [scanCallback, hpass, hrel]
    · simp [playAddr, mediaRecord, mapGet]

/-- Witness of C13: the relative path `clips/a b.mp4` has the two segments `clips` and
`a b.mp4`; the URL is `/media/clips/a%20b.mp4`, which splits into two pieces. -/
theorem media_url_segments_witness :
    mediaUrl evalLib "clips/a b.mp4" = "/media/clips/a%20b.mp4" ∧
    stringsSplit (trimLeading (mediaUrl evalLib "clips/a b.mp4") "/media/") '/' =
      ["clips", "a%20b.mp4"] ∧
    (stringsSplit (trimLeading (mediaUrl evalLib "clips/a b.mp4") "/media/") '/').map
        urlPathUnescape =
      [some (utf8Bytes "clips"), some (utf8Bytes "a b.mp4")] :=
  have h := media_url_segments evalLib rfl "clips/a b.mp4"
  ⟨by decide, by decide, h.2.2.2.2.1⟩

/-! ## Identifier of a media record -/

/-- What the callback of `scanMediaVideos` does with a regular file that passes the
filter and has a relative path: it appends the record built from them. -/
theorem scanCallback_file (lib : Lib) (mediaDir path fileName relPath : String)
    (videos : List Obj) (hpass : mediaExtension lib fileName = true)
    (hrel : lib.filepathRel mediaDir path = some relPath) :
    scanCallback lib mediaDir videos (WalkEvent.entry path fileName false) =
      (videos ++ [mediaRecord (lib.md5Hex relPath)
        (trimSuffix fileName (filepathExt fileName)) (mediaUrl lib relPath) ""], none) := by
  simp [scanCallback, hpass, hrel]

/-- The callback of `scanMediaVideos` only ever appends to `videos`. -/
theorem scanCallback_extends (lib : Lib) (mediaDir : String) (videos : List Obj)
    (ev : WalkEvent) :
    ∃ extra, (scanCallback lib mediaDir videos ev).1 = videos ++ extra := by
  unfold scanCallback
  cases ev with
  | failure path err =>
    refine ⟨[], ?_⟩
    dsimp only
    split_ifs <;> simp
  | entry path fileName isDir =>
    dsimp only
    split_ifs
    · exact ⟨[], by simp⟩
    · exact ⟨[], by simp⟩
    · split
      · exact ⟨[], by simp⟩
      · exact ⟨_, rfl⟩

/-- Records collected stay collected for the rest of the walk. -/
theorem walkDir_keeps (lib : Lib) (mediaDir : String) (r : Obj) :
    ∀ (events : List WalkEvent) (videos : List Obj), r ∈ videos →
      r ∈ (walkDir (scanCallback lib mediaDir) events videos).1 := by
  intro events
  induction events with
  | nil => intro videos h; exact h
  | cons ev rest ih =>
    intro videos h
    obtain ⟨extra, hex⟩ := scanCallback_extends lib mediaDir videos ev
    have hmem : r ∈ (scanCallback lib mediaDir videos ev).1 := by
      rw [hex]
      exact List.mem_append_left _ h
    rw [walkDir]
    cases hcb : scanCallback lib mediaDir videos ev with
    | mk st err =>
      rw [hcb] at hmem
      cases err with
      | none => exact ih st hmem
      | some e => exact hmem

/-- In a walk on which the callback never returns an error, the record appended for an
event of the walk is in the result, and the walk ends without error. -/
theorem walkDir_collects (lib : Lib) (mediaDir : String) (ev : WalkEvent) (r : Obj)
    (hev : ∀ videos, scanCallback lib mediaDir videos ev = (videos ++ [r], none)) :
    ∀ (events : List WalkEvent) (videos : List Obj),
      (∀ e ∈ events, ∀ vs, (scanCallback lib mediaDir vs e).2 = none) →
      ev ∈ events →
      r ∈ (walkDir (scanCallback lib mediaDir) events videos).1 ∧
      (walkDir (scanCallback lib mediaDir) events videos).2 = none := by
  intro events
  induction events with
  | nil => intro videos _ h; exact absurd h (List.not_mem_nil _)
  | cons e rest ih =>
    intro videos hok hin
    have hrest : ∀ x ∈ rest, ∀ vs, (scanCallback lib mediaDir vs x).2 = none :=
      fun x hx => hok x (List.mem_cons_of_mem _ hx)
    have he := hok e (List.mem_cons_self _ _) videos
    rw [walkDir]
    cases hcb : scanCallback lib mediaDir videos e with
    | mk st err =>
      rw [hcb] at he
      simp only at he
      subst he
      simp only
      have hnone : (walkDir (scanCallback lib mediaDir) rest st).2 = none := by
        have := walkDir_append (scanCallback lib mediaDir) [] rest st hrest
        rw [List.append_nil] at this
        rw [this]
        rfl
      rcases List.mem_cons.mp hin with heq | hmem
      · subst heq
        rw [hev videos] at hcb
        have hst : st = videos ++ [r] := (Prod.mk.inj hcb).1.symm
        refine ⟨walkDir_keeps lib mediaDir r rest st ?_, hnone⟩
        rw [hst]
        exact List.mem_append_right _ (List.mem_singleton_self r)
      · exact ⟨(ih st hrest hmem).1, hnone⟩

/-- C11: the identifier of a synthesized media record is a function of the relative
path only.  Take any two scans, with any media roots and any walks on which the
callback returns no error, that each visit a file passing the filter, both files with
the same path relative to their root.  Then each scan returns the record it appends
for its file, the two records have the same `aweme_id`, namely the digest of the
relative path, and in each record `video.play_addr.uri` equals `aweme_id`. -/
theorem media_identifier (lib : Lib) (w1 w2 : World) (root1 root2 : String)
    (path1 name1 path2 name2 relPath : String)
    (hrel1 : lib.filepathRel root1 path1 = some relPath)
    (hrel2 : lib.filepathRel root2 path2 = some relPath)
    (hpass1 : mediaExtension lib name1 = true)
    (hpass2 : mediaExtension lib name2 = true)
    (hin1 : WalkEvent.entry path1 name1 false ∈ w1.walkEvents root1)
    (hin2 : WalkEvent.entry path2 name2 false ∈ w2.walkEvents root2)
    (hok1 : ∀ ev ∈ w1.walkEvents root1, ∀ vs, (scanCallback lib root1 vs ev).2 = none)
    (hok2 : ∀ ev ∈ w2.walkEvents root2, ∀ vs, (scanCallback lib root2 vs ev).2 = none) :
    ∃ r1 r2,
      (∀ vs, scanCallback lib root1 vs (WalkEvent.entry path1 name1 false) =
        (vs ++ [r1], none)) ∧
      (∀ vs, scanCallback lib root2 vs (WalkEvent.entry path2 name2 false) =
        (vs ++ [r2], none)) ∧
      r1 ∈ (scanMediaVideos lib w1 root1).1 ∧
      r2 ∈ (scanMediaVideos lib w2 root2).1 ∧
      mapGet r1 "aweme_id" = some (Value.str (lib.md5Hex relPath)) ∧
      mapGet r2 "aweme_id" = mapGet r1 "aweme_id" ∧
      playAddr r1 "uri" = mapGet r1 "aweme_id" ∧
      playAddr r2 "uri" = mapGet r2 "aweme_id" := by
  have hcb1 := fun vs => scanCallback_file lib root1 path1 name1 relPath vs hpass1 hrel1
  have hcb2 := fun vs => scanCallback_file lib root2 path2 name2 relPath vs hpass2 hrel2
  have hscan : ∀ (w : World) (root : String) (ev : WalkEvent) (r : Obj),
      (∀ vs, scanCallback lib root vs ev = (vs ++ [r], none)) →
      (∀ e ∈ w.walkEvents root, ∀ vs, (scanCallback lib root vs e).2 = none) →
      ev ∈ w.walkEvents root → r ∈ (scanMediaVideos lib w root).1 := by
    intro w root ev r hev hok hin
    obtain ⟨hmem, hnone⟩ := walkDir_collects lib root ev r hev (w.walkEvents root) [] hok hin
    unfold scanMediaVideos
    cases hwalk : walkDir (scanCallback lib root) (w.walkEvents root) [] with
    | mk videos err =>
      rw [hwalk] at hmem hnone
      simp only at hnone
      subst hnone
      exact hmem
  refine ⟨_, _, hcb1, hcb2, hscan w1 root1 _ _ hcb1 hok1 hin1,
    hscan w2 root2 _ _ hcb2 hok2 hin2, ?_, ?_, ?_, ?_⟩ <;>
  simp [mediaRecord, mapGet, playAddr]

/-- Every record that a scan returns was appended for a regular file of the walk that
passes the filter and has a relative path, and carries the digest of that relative
path as `aweme_id` and as `video.play_addr.uri`. -/
theorem scan_record_origin (lib : Lib) (w : World) (root : String) (r : Obj)
    (hr : r ∈ (scanMediaVideos lib w root).1) :
    ∃ path fileName relPath,
      WalkEvent.entry path fileName false ∈ w.walkEvents root ∧
      mediaExtension lib fileName = true ∧
      lib.filepathRel root path = some relPath ∧
      r = mediaRecord (lib.md5Hex relPath) (trimSuffix fileName (filepathExt fileName))
        (mediaUrl lib relPath) "" ∧
      mapGet r "aweme_id" = some (Value.str (lib.md5Hex relPath)) ∧
      playAddr r "uri" = some (Value.str (lib.md5Hex relPath)) := by
  have hinv : ∀ (events : List WalkEvent) (videos : List Obj),
      (∀ x ∈ videos, ∃ path fileName relPath,
        WalkEvent.entry path fileName false ∈ w.walkEvents root ∧
        mediaExtension lib fileName = true ∧
        lib.filepathRel root path = some relPath ∧
        x = mediaRecord (lib.md5Hex relPath) (trimSuffix fileName (filepathExt fileName))
          (mediaUrl lib relPath) "") →
      (∀ e ∈ events, e ∈ w.walkEvents root) →
      ∀ x ∈ (walkDir (scanCallback lib root) events videos).1,
        ∃ path fileName relPath,
          WalkEvent.entry path fileName false ∈ w.walkEvents root ∧
          mediaExtension lib fileName = true ∧
          lib.filepathRel root path = some relPath ∧
          x = mediaRecord (lib.md5Hex relPath) (trimSuffix fileName (filepathExt fileName))
            (mediaUrl lib relPath) "" := by
    intro events
    induction events with
    | nil => intro videos hv _ x hx; exact hv x hx
    | cons e rest ih =>
      intro videos hv hsub x hx
      have hstep : ∀ y ∈ (scanCallback lib root videos e).1, ∃ path fileName relPath,
          WalkEvent.entry path fileName false ∈ w.walkEvents root ∧
          mediaExtension lib fileName = true ∧
          lib.filepathRel root path = some relPath ∧
          y = mediaRecord (lib.md5Hex relPath) (trimSuffix fileName (filepathExt fileName))
            (mediaUrl lib relPath) "" := by
        intro y hy
        cases e with
        | failure path err =>
          unfold scanCallback at hy
          dsimp only at hy
          split_ifs at hy <;> exact hv y hy
        | entry path fileName isDir =>
          unfold scanCallback at hy
          dsimp only at hy
          split_ifs at hy with h1 h2
          · exact hv y hy
          · exact hv y hy
          · split at hy
            · exact hv y hy
            · next relPath hrel =>
              rcases List.mem_append.mp hy with hold | hnew
              · exact hv y hold
              · have hdir : isDir = false := by simpa using h1
                subst hdir
                refine ⟨path, fileName, relPath, hsub _ (List.mem_cons_self _ _), ?_, hrel,
                  List.mem_singleton.mp hnew⟩
                simpa using h2
      rw [walkDir] at hx
      cases hcb : scanCallback lib root videos e with
      | mk st err =>
        rw [hcb] at hx hstep
        cases err with
        | none =>
          exact ih st hstep (fun e2 he2 => hsub e2 (List.mem_cons_of_mem _ he2)) x hx
        | some e2 => exact hstep x hx
  have hwalk : ∀ x ∈ (walkDir (scanCallback lib root) (w.walkEvents root) []).1,
      ∃ path fileName relPath,
        WalkEvent.entry path fileName false ∈ w.walkEvents root ∧
        mediaExtension lib fileName = true ∧
        lib.filepathRel root path = some relPath ∧
        x = mediaRecord (lib.md5Hex relPath) (trimSuffix fileName (filepathExt fileName))
          (mediaUrl lib relPath) "" :=
    hinv (w.walkEvents root) [] (fun x hx => absurd hx (List.not_mem_nil _))
      (fun e he => he)
  have hsub : r ∈ (walkDir (scanCallback lib root) (w.walkEvents root) []).1 := by
    unfold scanMediaVideos at hr
    cases hw : walkDir (scanCallback lib root) (w.walkEvents root) [] with
    | mk videos err =>
      rw [hw] at hr
      cases err with
      | none => exact hr
      | some e =>
        dsimp only at hr
        split_ifs at hr
        · exact hr
        · exact absurd hr (List.not_mem_nil _)
  obtain ⟨path, fileName, relPath, h1, h2, h3, h4⟩ := hwalk r hsub
  refine ⟨path, fileName, relPath, h1, h2, h3, h4, ?_, ?_⟩ <;>
  · rw [h4]
    simp [mediaRecord, mapGet, playAddr]

/-- Witness of C11: `a.mp4` under the root `media`, visited last, and `a.mp4` under
the root `/srv/videos`, visited first among other files, get the same `aweme_id`. -/
theorem media_identifier_witness :
    ∃ r1 r2,
      r1 ∈ (scanMediaVideos evalLib clipsWorld "media").1 ∧
      r2 ∈ (scanMediaVideos evalLib archiveWorld "/srv/videos").1 ∧
      mapGet r1 "aweme_id" = some (Value.str "md5(a.mp4)") ∧
      mapGet r2 "aweme_id" = mapGet r1 "aweme_id" ∧
      playAddr r1 "uri" = mapGet r1 "aweme_id" := by
  obtain ⟨r1, r2, _, _, h1, h2, h3, h4, h5, _⟩ :=
    media_identifier evalLib clipsWorld archiveWorld "media" "/srv/videos"
      "media/a.mp4" "a.mp4" "/srv/videos/a.mp4" "a.mp4" "a.mp4"
      (by decide) (by decide) (by decide) (by decide)
      (List.Mem.tail _ (List.Mem.tail _ (List.Mem.head _)))
      (List.Mem.tail _ (List.Mem.head _))
      (by
        intro ev hev vs
        simp only [clipsWorld, List.mem_cons, List.mem_singleton, List.not_mem_nil,
          or_false] at hev
        rcases hev with h | h | h <;> subst h <;> rfl)
      (by
        intro ev hev vs
        simp only [archiveWorld, List.mem_cons, List.mem_singleton, List.not_mem_nil,
          or_false] at hev
        rcases hev with h | h | h | h | h <;> subst h <;> rfl)
  exact ⟨r1, r2, h1, h2, h3, h4, h5⟩

/-! ## The liked and history windows, handler by handler -/

/-- The answer of `videoLikeHandler` to every request that is not OPTIONS: the
`[200,350)` bucket of `jsonVideos` as `list` and its length as `total`. -/
theorem videoLikeHandler_answer (lib : Lib) (world : World) (g : Globals) (r : Request)
    (hm : r.method ≠ "OPTIONS") :
    videoLikeHandler lib world g r =
      some (encode (setHeader (cors newResponse) "Content-Type" "application/json")
        (Value.map
          [ ("code", Value.int 200),
            ("data", responseData (((g.jsonVideos.drop 200).take 150).length : Int)
              (recsValue ((g.jsonVideos.drop 200).take 150))),
            ("msg", Value.str "") ])) := by
  simp only [videoLikeHandler, hm, if_false, (bucket_eq g.jsonVideos).1]

/-- Whenever `videoHistoryHandler` answers a request that is not OPTIONS, the `total`
of the answer is the length of the `[200,350)` bucket of `jsonVideos` and the `list`
is a page of that bucket: the total does not depend on `pageNo` and `pageSize`. -/
theorem videoHistoryHandler_total (lib : Lib) (world : World) (g : Globals) (r : Request)
    (w : Response) (hm : r.method ≠ "OPTIONS")
    (hw : videoHistoryHandler lib world g r = some w) :
    ∃ page,
      offsetSlice ((g.jsonVideos.drop 200).take 150)
        (wrap (queryInt lib r "pageNo" 0 * queryInt lib r "pageSize" 10))
        (queryInt lib r "pageSize" 10) = some page ∧
      w = encode (setHeader (cors newResponse) "Content-Type" "application/json")
        (Value.map
          [ ("code", Value.int 200),
            ("data", Value.map
              [ ("total", Value.int (((g.jsonVideos.drop 200).take 150).length : Int)),
                ("list", recsValue page) ]),
            ("msg", Value.str "") ]) := by
  simp only [videoHistoryHandler, hm, if_false, videoHistoryPage,
    (bucket_eq g.jsonVideos).2] at hw
  cases hp : offsetSlice ((g.jsonVideos.drop 200).take 150)
      (wrap (queryInt lib r "pageNo" 0 * queryInt lib r "pageSize" 10))
      (queryInt lib r "pageSize" 10) with
  | none => simp [hp] at hw
  | some page =>
    simp only [hp, Option.map_some', Option.some.injEq] at hw
    exact ⟨page, rfl, hw.symm⟩

/-- For a non-negative page that does not overflow `videoHistoryHandler` does answer,
with the dropped-and-taken page of the bucket. -/
theorem videoHistoryHandler_answer (lib : Lib) (world : World) (g : Globals) (r : Request)
    (hm : r.method ≠ "OPTIONS")
    (h0 : 0 ≤ wrap (queryInt lib r "pageNo" 0 * queryInt lib r "pageSize" 10))
    (h1 : 0 ≤ queryInt lib r "pageSize" 10)
    (h2 : wrap (queryInt lib r "pageNo" 0 * queryInt lib r "pageSize" 10) +
      queryInt lib r "pageSize" 10 < 2 ^ 63) :
    videoHistoryHandler lib world g r =
      some (encode (setHeader (cors newResponse) "Content-Type" "application/json")
        (Value.map
          [ ("code", Value.int 200),
            ("data", Value.map
              [ ("total", Value.int (((g.jsonVideos.drop 200).take 150).length : Int)),
                ("list", recsValue (dropTakePage ((g.jsonVideos.drop 200).take 150)
                  (wrap (queryInt lib r "pageNo" 0 * queryInt lib r "pageSize" 10))
                  (queryInt lib r "pageSize" 10))) ]),
            ("msg", Value.str "") ])) := by
  have hp := (offsetSlice_eq ((g.jsonVideos.drop 200).take 150) _ _ h0 h1 h2).1
  simp only [videoHistoryHandler, hm, if_false, videoHistoryPage,
    (bucket_eq g.jsonVideos).2, hp, Option.map_some']

set_option maxRecDepth 100000 in
/-- C4 (the code at the failing input): with 120 video records, `/video/like` answers
total 0 and the empty list, and so does `/video/history?pageNo=0&pageSize=1`; but on
`/video/history?pageNo=-1&pageSize=1` the bucket is empty, `offset = -1` is not
`>= 0`, `videoHistoryHandler` evaluates `subset[-1:0]` and panics: it reports no total
and no list. -/
theorem videoHistory_negative_page_panics :
    videoHistorySubset catalogue120.jsonVideos = some ([], 0) ∧
    videoLikePage catalogue120.jsonVideos = some ([], 0) ∧
    videoHistoryPage catalogue120.jsonVideos 0 1 = some ([], 0) ∧
    videoHistoryPage catalogue120.jsonVideos (-1) 1 = none ∧
    videoHistoryHandler evalLib emptyWorld catalogue120 (historyRequest "0" "1") =
      some { header := [ ("Access-Control-Allow-Origin", "*"),
                         ("Access-Control-Allow-Headers", "Content-Type"),
                         ("Content-Type", "application/json") ],
             status := none,
             body := Body.json (Value.map
               [ ("code", Value.int 200),
                 ("data", Value.map [("total", Value.int 0), ("list", Value.list [])]),
                 ("msg", Value.str "") ]),
             reads := [] } ∧
    videoHistoryHandler evalLib emptyWorld catalogue120 (historyRequest "-1" "1") = none := by
  exact ⟨rfl, rfl, rfl, rfl, rfl, rfl⟩

end Douyin
